import Mathlib

/-!
# Verification of the freyr-js YouTube search backends

This development is a shallow embedding of `src/services/youtube.js`:
the argument-shuffling/validation helper `_getSearchArgs`, the
YouTubeMusic (`Backend A`) search pipeline (section classification,
textual-weight prefilter, accuracy scoring, deduplication, sorting)
and the YouTube (`Backend B`) search pipeline (query-variant batch,
failure absorption, accuracy scoring, deduplication, sorting).

Numbers are modelled as exact rationals (`ℚ`).  JavaScript `NaN` values
that arise in the pipelines (an unparsable duration string, a view
normalisation over an absent or zero maximum) are modelled as the
absent value `none` of `Option ℚ`; every comparison against `none`
is false, matching the fact that every JS comparison against `NaN`
is false.  JS object property tables are modelled as association lists
in insertion order, with `Object.values` enumerating array-index-like
keys first in ascending numeric order, as ECMAScript prescribes.

The helpers `textUtils.stripText` / `textUtils.getWeight` (file
`text_utils.js`), `walk` (file `walkr.js`) and `AsyncQueue`
(file `async_queue.js`) are imported by `youtube.js` but are not part
of the sources under verification; they are treated at their interface
as the specification describes: weights are parameters (spec §4.2 says
they are 0–100 similarity percentages), `walk` results are
`Option`-valued fields (spec §4.1: value or absence marker), and the
task queue returns one settled outcome per submitted variant in
submission order (spec §4.3).
-/

/-- Model of the JavaScript values that can flow into `_getSearchArgs`:
`undefined`, strings, numbers and arrays. -/
inductive JSVal where
  | undef : JSVal
  | str : String → JSVal
  | num : ℚ → JSVal
  | arr : List JSVal → JSVal

/-- JavaScript truthiness for the modelled values: `undefined` is falsy,
a string is truthy iff non-empty, a number is truthy iff non-zero
(`NaN` is not modelled here; no `NaN` reaches `_getSearchArgs`), and an
array is always truthy. -/
def jsTruthy : JSVal → Bool
  | .undef => false
  | .str s => s ≠ ""
  | .num n => n ≠ 0
  | .arr _ => true

/-- Whether a modelled JS value is a number (`typeof x === 'number'`). -/
def isNum : JSVal → Bool
  | .num _ => true
  | _ => false

/-- The argument-shuffling phase of `_getSearchArgs` (youtube.js lines
24–28): a numeric `track` or `album` is moved into `duration`; a
non-array `artists` is wrapped into a singleton when `track` and
`artists` are both truthy, and otherwise `artists` becomes the empty
array while `track` becomes `artists || track`.  After this phase
`artists` is always an array, so it is returned as a plain list. -/
def shuffleArgs (artists track album duration : JSVal) :
    List JSVal × JSVal × JSVal × JSVal :=
  let td : JSVal × JSVal :=
    match track with
    | .num n => (.undef, .num n)
    | t => (t, duration)
  let track := td.1
  let duration := td.2
  let ad : JSVal × JSVal :=
    match album with
    | .num n => (.undef, .num n)
    | a => (a, duration)
  let album := ad.1
  let duration := ad.2
  match artists with
  | .arr xs => (xs, track, album, duration)
  | a =>
    if jsTruthy track && jsTruthy a then ([a], track, album, duration)
    else ([], if jsTruthy a then a else track, album, duration)

/-- Extracts the string carried by every element of a list of JS values;
`none` when some element is not a string (the situation in which
`_getSearchArgs` raises the artists error). -/
def allStrings : List JSVal → Option (List String)
  | [] => some []
  | .str s :: rest => (allStrings rest).map (s :: ·)
  | _ :: _ => none

/-- The validation phase of `_getSearchArgs` (youtube.js lines 29–34):
`track` and `album` must be strings, every artist must be a string, and
a truthy `duration` must be a number.  Errors carry the exact message
the source throws. -/
def validateArgs (artists : List JSVal) (track album duration : JSVal) :
    Except String (List String × String × String × JSVal) :=
  match track with
  | .str t =>
    match album with
    | .str al =>
      match allStrings artists with
      | some names =>
        if jsTruthy duration && !isNum duration then
          .error "<duration>, if defined must be a valid number"
        else .ok (names, t, al, duration)
      | none => .error "<artist>, if defined must be a valid array of strings"
    | _ => .error "<album> must be a valid string"
  | _ => .error "<track> must be a valid string"

/-- Embedding of `_getSearchArgs` (youtube.js lines 23–35): shuffling
followed by validation. -/
def getSearchArgs (artists track album duration : JSVal) :
    Except String (List String × String × String × JSVal) :=
  let r := shuffleArgs artists track album duration
  validateArgs r.1 r.2.1 r.2.2.1 r.2.2.2

/-- Truthiness of the (optional numeric) expected duration as the
accuracy formulas test it: absent and zero durations are both falsy. -/
def jsTruthyNum : Option ℚ → Bool
  | none => false
  | some d => d ≠ 0

/-- The type-dependent boost percentage of Backend A (youtube.js line
330): 50 for songs, 25 for videos, 5 otherwise. -/
def typeBonus (ty : String) : ℚ :=
  if ty = "song" then 50 else if ty = "video" then 25 else 5

/-- Boosting an accuracy value toward 100 by the type-dependent fraction
of the remaining gap (youtube.js line 330). -/
def boostA (ty : String) (a : ℚ) : ℚ :=
  a + typeBonus ty / 100 * (100 - a)

/-- Backend A accuracy for an item whose duration parsed to `m`
milliseconds, against a truthy expected duration `d` (youtube.js lines
326–332): textual weight minus the relative duration penalty, then
boosted. -/
def accuracyACore (w d : ℚ) (ty : String) (m : ℚ) : ℚ :=
  boostA ty (w - |d - m| / d * 100)

/-- Backend A accuracy when the expected duration is falsy: fixed
neutral penalty of `0.5 * 100 = 50` (youtube.js line 328). -/
def accuracyANoDur (w : ℚ) (ty : String) : ℚ :=
  boostA ty (w - 1 / 2 * 100)

/-- Embedding of Backend A's `calculateAccuracyFor` (youtube.js lines
325–333).  `dm` is the item's parsed `duration_ms`; it is `none` when
the duration string did not parse (JS `NaN`), in which case the whole
accuracy is `NaN` exactly when the expected duration is truthy (a falsy
expected duration never touches `duration_ms`). -/
def accuracyA (w : ℚ) (duration : Option ℚ) (ty : String) (dm : Option ℚ) :
    Option ℚ :=
  match duration with
  | some d =>
    if d = 0 then some (accuracyANoDur w ty)
    else
      match dm with
      | some m => some (accuracyACore w d ty m)
      | none => none
  | none => some (accuracyANoDur w ty)

/-- Backend B accuracy for an item against a truthy expected duration
`d` (youtube.js lines 429–441): `100` minus the relative duration
penalty, then up to 80% of the remaining gap scaled by the view ratio
`r`, then 60% of the remaining gap when the author weight is at least
80. -/
def accuracyBCore (dpen : ℚ) (r : ℚ) (authorW : ℚ) : ℚ :=
  let a0 := 100 - dpen * 100
  let a1 := a0 + (100 - a0) * (80 / 100) * r
  a1 + (if authorW ≥ 80 then 60 / 100 * (100 - a1) else 0)

/-- The relative duration penalty shared by both backends: the absolute
delta over the expected duration when the expected duration is truthy,
`0.5` otherwise. -/
def durPenalty (duration : Option ℚ) (ms : ℚ) : ℚ :=
  match duration with
  | some d => if d = 0 then 1 / 2 else |d - ms| / d
  | none => 1 / 2

/-- Embedding of Backend B's `calculateAccuracyFor` (youtube.js lines
429–441).  `hv` is the batch-wide `highestViews`; it is `none` when some
variant failed (JS `Math.max` over an `undefined` member is `NaN`).  A
zero maximum yields `0 / 0 = NaN`; in every state the pipeline can
reach, a zero maximum forces all kept views to be zero, so the division
is `0 / 0` and the modelled `none` is exact. -/
def accuracyB (duration : Option ℚ) (hv : Option ℚ) (authorW : ℚ)
    (views : ℚ) (seconds : ℚ) : Option ℚ :=
  match hv with
  | none => none
  | some m =>
    if m = 0 then none
    else some (accuracyBCore (durPenalty duration (seconds * 1000)) (views / m) authorW)

/-- Whitespace trimming on a character list (both ends), the effect of
JS number coercion on a string before parsing. -/
def charsTrim (l : List Char) : List Char :=
  ((l.dropWhile Char.isWhitespace).reverse.dropWhile Char.isWhitespace).reverse

/-- Structural decimal parsing of a digit list (most significant
first); `none` on any non-digit. -/
def parseNatGo (acc : ℕ) : List Char → Option ℕ
  | [] => some acc
  | c :: rest =>
    if c.isDigit then parseNatGo (acc * 10 + (c.toNat - 48)) rest else none

/-- Decimal value of a non-empty digit string; `none` when empty or
holding a non-digit. -/
def parseNatChars : List Char → Option ℕ
  | [] => none
  | c :: rest => parseNatGo 0 (c :: rest)

/-- Splitting a character list on the colon separator, as
`String.split(':')` does (a trailing separator yields a final empty
segment, a lone string yields one segment). -/
def splitColonGo (cur : List Char) : List Char → List (List Char)
  | [] => [cur.reverse]
  | c :: rest =>
    if c = ':' then cur.reverse :: splitColonGo [] rest
    else splitColonGo (c :: cur) rest

/-- The segments of a duration string around `:`. -/
def splitOnColon (s : String) : List String :=
  (splitColonGo [] s.data).map fun l => String.mk l

/-- Coercion of a duration-string segment to a number, as the JS unary
plus in `item.duration.split(':').reduce((acc, time) => 60 * acc + +time)`
performs it: whitespace is trimmed, the empty string coerces to 0, a
digit string to its value, and anything else to `NaN` (`none`).  Signs,
fractions and exponents never occur in duration timestamps and are out
of the modelled scope (they would simply be further `some` cases). -/
def jsToNumSegment (s : String) : Option ℚ :=
  match charsTrim s.data with
  | [] => some 0
  | c :: rest => (parseNatChars (c :: rest)).map fun n => (n : ℚ)

/-- Parses every segment of a duration string; `none` as soon as one
segment is `NaN`, matching NaN propagation through the JS reduce. -/
def parseSegs : List String → Option (List ℚ)
  | [] => some []
  | s :: rest =>
    match jsToNumSegment s with
    | some v => (parseSegs rest).map (v :: ·)
    | none => none

/-- Embedding of the `duration_ms` computation of Backend A (youtube.js
line 343): split on `:`, reduce with `60 * acc + +time`, multiply by
1000.  The JS reduce without an initial value starts from the first
segment (a string) which the first multiplication coerces, so folding
the coerced segments from 0 computes the same value. -/
def jsDurationMs (s : String) : Option ℚ :=
  (parseSegs (splitOnColon s)).map fun l =>
    l.foldl (fun a v => 60 * a + v) 0 * 1000

/-- The string a JS engine uses as property key for a computed member
access: the videoId itself, or the string `"undefined"` when the
videoId is the undefined value. -/
def jsKey : Option String → String
  | some s => s
  | none => "undefined"

/-- Whether a property key is an ECMAScript array index (a canonical
numeric string below 2^32 − 1); such keys are enumerated first, in
ascending numeric order, by `Object.values`.  A decimal string is
canonical exactly when it has no leading zero (unless it is the single
digit 0). -/
def isArrayIndexKey (s : String) : Bool :=
  match s.data with
  | [] => false
  | c :: rest =>
    match parseNatChars (c :: rest) with
    | some n => (decide (c ≠ '0') || decide (rest = [])) && decide (n < 4294967295)
    | none => false

/-- Numeric value of an array-index key (0 for non-numeric keys, which
never reach this function). -/
def keyNat (s : String) : ℕ := (parseNatChars s.data).getD 0

/-- Insertion into a list of map entries kept in ascending numeric key
order; used to model the array-index part of JS property enumeration. -/
def insertIdxAsc {α : Type} (p : String × α) :
    List (String × α) → List (String × α)
  | [] => [p]
  | q :: rest =>
    if keyNat p.1 < keyNat q.1 then p :: q :: rest else q :: insertIdxAsc p rest

/-- Embedding of `Object.values` over the incrementally built map:
array-index-like keys first in ascending numeric order, then the
remaining keys in insertion order (ECMAScript ordinary own property key
enumeration). -/
def objectValues {α : Type} (m : List (String × α)) : List α :=
  ((m.filter fun p => isArrayIndexKey p.1).foldl
      (fun acc p => insertIdxAsc p acc) []).map Prod.snd
    ++ ((m.filter fun p => !isArrayIndexKey p.1).map Prod.snd)

/-- The comparison the sort comparator
`(a, b) => (a.accuracy > b.accuracy ? -1 : 1)` performs: a JS `>` that
is false whenever either side is `NaN`. -/
def jsGtOpt (a b : Option ℚ) : Bool :=
  match a, b with
  | some x, some y => decide (y < x)
  | _, _ => false

/-- Stable descending insertion: the new element is placed before the
first element it strictly beats, hence after every element it does not
beat (equal and incomparable elements keep their relative order). -/
def insertDesc {α : Type} (acc : α → Option ℚ) (x : α) :
    List α → List α
  | [] => [x]
  | e :: rest =>
    if jsGtOpt (acc x) (acc e) then x :: e :: rest else e :: insertDesc acc x rest

/-- Embedding of `.sort((a, b) => (a.accuracy > b.accuracy ? -1 : 1))`
as run by Node's TimSort.  The comparator returns a negative value
exactly when the left accuracy strictly beats the right one, and 1
otherwise, so TimSort's merges and binary insertions move an element
left exactly past the elements it strictly beats: the result is the
stable descending sort modelled here.  In every list the pipelines
produce, the accuracies are either all numeric (a strict weak order) or
all `NaN` (all comparisons false, so the order is untouched), the two
regimes in which this characterisation of TimSort holds. -/
def jsSortDesc {α : Type} (acc : α → Option ℚ) (l : List α) : List α :=
  l.foldl (fun s x => insertDesc acc x s) []

/-- A name/browse-id reference extracted from a navigable text run
(youtube.js line 207); after the `startsWith('UC')` classification the
id is always a present string. -/
structure NavRef where
  name : String
  id : String
deriving DecidableEq

/-- The shape of one `result` object built by the YouTubeMusic response
mapper (youtube.js lines 197–255) as far as `YouTubeMusic.search` reads
it.  Each `Option` layer models property presence; `videoId?` and
`duration?` have a second layer because those properties can be present
with the undefined value (a failed `walk` extraction, a degenerate
video run list).  Branch-specific fields the ranking pipeline never
reads (views, year, subscribers, itemCount, author, artist, browseId)
are omitted, but their extraction failures still abort the mapper. -/
structure ItemObj where
  type? : Option String
  title? : Option String
  videoId? : Option (Option String)
  duration? : Option (Option String)
  artists : List NavRef
  album : Option NavRef
deriving DecidableEq

/-- An item surviving the `validSections` filter of
`YouTubeMusic.search` (youtube.js lines 308–324): the title property is
present and the type is the string song or video. -/
structure AValid where
  base : ItemObj
  title : String
  type : String
deriving DecidableEq

/-- Embedding of the `validSections` construction (youtube.js lines
303–324): items from the top/songs/videos sections (already
concatenated by the caller), kept when they carry a title property and
a song or video type.  The textual weight attached by the same map step
is the external `getWeight ∘ stripText` composition and stays a
parameter `wf` of the pipeline. -/
def validSectionsA (items : List ItemObj) : List AValid :=
  items.filterMap fun i =>
    match i.title?, i.type? with
    | some t, some ty =>
      if ty = "song" ∨ ty = "video" then some ⟨i, t, ty⟩ else none
    | _, _ => none

/-- A normalized Backend A candidate (`cleanItem`, youtube.js lines
338–346).  `getFeeds` is an opaque async thunk over the videoId and is
not modelled.  `duration_ms` is `none` when the duration string did not
parse (JS `NaN`); `videoId` is `none` when the play-button extraction
returned the absence marker. -/
structure CandA where
  title : String
  type : String
  author : List NavRef
  durationStr : String
  duration_ms : Option ℚ
  videoId : Option String
  accuracy : Option ℚ
deriving DecidableEq

/-- JS comparison of a possibly-NaN accuracy against a constant bound
(`accuracy > 80`): false on `NaN`. -/
def jsGtC (a : Option ℚ) (c : ℚ) : Bool :=
  match a with
  | some q => decide (c < q)
  | none => false

/-- Building the `cleanItem` of Backend A for a valid item with videoId
property value `vid` and duration string `ds` (youtube.js lines
338–347). -/
def cleanA (wf : ItemObj → ℚ) (duration : Option ℚ) (i : AValid)
    (vid : Option String) (ds : String) : CandA :=
  let dm := jsDurationMs ds
  { title := i.title, type := i.type, author := i.base.artists,
    durationStr := ds, duration_ms := dm, videoId := vid,
    accuracy := accuracyA (wf i.base) duration i.type dm }

/-- One step of the Backend A dedup/threshold reducer (youtube.js lines
335–350): an item is considered only when its weight exceeds 65, its
videoId property is present and its key is not in the map yet; the
clean item is then built (reading `item.duration` — a `TypeError`, and
hence `none` for the whole search, when that property is absent or
undefined) and inserted when its accuracy exceeds 80. -/
def stepA (wf : ItemObj → ℚ) (duration : Option ℚ)
    (final : List (String × CandA)) (i : AValid) :
    Option (List (String × CandA)) :=
  if wf i.base > 65 then
    match i.base.videoId? with
    | some vid =>
      if (final.lookup (jsKey vid)).isSome then some final
      else
        match i.base.duration? with
        | some (some ds) =>
          if jsGtC (cleanA wf duration i vid ds).accuracy 80 then
            some (final ++ [(jsKey vid, cleanA wf duration i vid ds)])
          else some final
        | _ => none
    | none => some final
  else some final

/-- The Backend A reducer over all valid items, threaded through the
crash-signalling `Option`. -/
def buildA (wf : ItemObj → ℚ) (duration : Option ℚ) :
    List AValid → List (String × CandA) → Option (List (String × CandA))
  | [], final => some final
  | i :: rest, final =>
    match stepA wf duration final i with
    | some f2 => buildA wf duration rest f2
    | none => none

/-- Embedding of the ranking part of `YouTubeMusic.search` (youtube.js
lines 303–353): section filter, weight/videoId/dedup/accuracy reducer,
`Object.values`, descending sort.  `items` is the concatenation of the
top/songs/videos section contents; `wf` is the external textual weight;
`duration` is the validated expected duration (`none` for any falsy
non-number value). -/
def searchA (wf : ItemObj → ℚ) (duration : Option ℚ)
    (items : List ItemObj) : Option (List CandA) :=
  (buildA wf duration (validSectionsA items) []).map fun m =>
    jsSortDesc CandA.accuracy (objectValues m)

/-- A raw video entry of the keyword-search collaborator (`yt-search`)
as Backend B reads it: `videoId?` models the `'videoId' in item`
property-presence check with a possibly-undefined value, and `views`
is absent (`none`) until the pipeline normalizes it with `|| 0`. -/
structure RawVideo where
  videoId? : Option (Option String)
  title : String
  type : String
  authorName : String
  durationTimestamp : String
  durationSeconds : ℚ
  views : Option ℚ
deriving DecidableEq

/-- The `item.views = item.views || 0` normalization of the Backend B
variant worker (youtube.js line 386): any falsy views (absent or zero)
become 0. -/
def viewsOrZero (v : RawVideo) : ℚ :=
  match v.views with
  | some x => x
  | none => 0

/-- One variant's aggregate, the accumulator of the worker reduce
(youtube.js lines 380–391): the disambiguating filter keywords, the
highest view count seen among kept entries (0 initially) and the kept
entries in encounter order. -/
structure BSource where
  xFilters : List String
  highestViews : ℚ
  results : List RawVideo
deriving DecidableEq

/-- Embedding of the Backend B variant worker (youtube.js lines
373–392): each raw video whose title+author weight against the stripped
query exceeds 70 is kept (with normalized views) and bumps the
variant's highest view count.  The weight is the external
`getWeight ∘ stripText` composition and stays a parameter `wf`. -/
def runVariant (wf : RawVideo → ℚ) (xFilters : List String)
    (videos : List RawVideo) : BSource :=
  videos.foldl
    (fun acc v =>
      if wf v > 70 then
        let nv := viewsOrZero v
        { acc with results := acc.results ++ [{ v with views := some nv }],
                   highestViews := max acc.highestViews nv }
      else acc)
    ⟨xFilters, 0, []⟩

/-- The failure reason of a rejected variant task: the error object's
message and its (possibly absent) `code`. -/
structure JErr where
  message : String
  code : Option String
deriving DecidableEq

/-- The `YouTubeSearchError` shape (youtube.js lines 14–21): the
constructor stores `status`, `statusCode` and `body` only when they are
truthy. -/
structure YTErr where
  message : String
  statusCode : Option ℚ
  status : Option String
deriving DecidableEq

/-- Building the `YouTubeSearchError` that `YouTube.search` re-surfaces
when every variant failed (youtube.js line 425):
`new YouTubeSearchError(err.message, null, err.code)` — the null
statusCode is dropped, and the code is stored as `status` only when
truthy. -/
def mkYTErr (e : JErr) : YTErr :=
  { message := e.message, statusCode := none,
    status := match e.code with
      | some c => if c = "" then none else some c
      | none => none }

/-- Whether a settled task outcome is a rejection (`result.isRejected()`
after `reflect()`). -/
def isRej {ε α : Type} : Except ε α → Bool
  | .error _ => true
  | .ok _ => false

/-- Embedding of
`Math.max(...searchResults.map(sources => sources.highestViews))`
(youtube.js line 428): `none` (JS `NaN`) when any member is the absent
value — the case of a variant that failed and was replaced by the empty
object, whose `highestViews` is undefined.  The empty-list case (JS
`-Infinity`) never occurs: the batch always has four variants. -/
def jsMathMax (l : List (Option ℚ)) : Option ℚ :=
  if l.contains none then none
  else
    match l.filterMap id with
    | [] => none
    | x :: rest => some (rest.foldl max x)

/-- A normalized Backend B candidate (youtube.js lines 448–458);
`getFeeds` is an opaque async thunk and is not modelled. -/
structure CandB where
  title : String
  type : String
  author : String
  durationStr : String
  duration_ms : ℚ
  videoId : Option String
  xFilters : List String
  accuracy : Option ℚ
deriving DecidableEq

/-- Building one Backend B candidate for a kept raw video with videoId
property value `vid` (youtube.js lines 448–458).  `awf` is the external
author weight `getWeight(strippedArtists, stripText([item.author.name]))`. -/
def cleanB (duration : Option ℚ) (hv : Option ℚ) (awf : RawVideo → ℚ)
    (xFilters : List String) (v : RawVideo) (vid : Option String) : CandB :=
  { title := v.title, type := v.type, author := v.authorName,
    durationStr := v.durationTimestamp,
    duration_ms := v.durationSeconds * 1000, videoId := vid,
    xFilters := xFilters,
    accuracy := accuracyB duration hv (awf v) (viewsOrZero v) v.durationSeconds }

/-- The Backend B dedup insertion over one variant's kept entries
(youtube.js lines 443–460): first-seen key wins, no thresholds. -/
def insertB (duration : Option ℚ) (hv : Option ℚ) (awf : RawVideo → ℚ)
    (xFilters : List String) (final : List (String × CandB)) (v : RawVideo) :
    List (String × CandB) :=
  match v.videoId? with
  | some vid =>
    if (final.lookup (jsKey vid)).isSome then final
    else final ++ [(jsKey vid, cleanB duration hv awf xFilters v vid)]
  | none => final

/-- The Backend B dedup map over all variants: failed variants carry no
`results` array and contribute nothing (youtube.js line 444). -/
def buildB (duration : Option ℚ) (hv : Option ℚ) (awf : RawVideo → ℚ) :
    List (Option BSource) → List (String × CandB) → List (String × CandB)
  | [], final => final
  | none :: rest, final => buildB duration hv awf rest final
  | some s :: rest, final =>
    buildB duration hv awf rest
      (s.results.foldl (insertB duration hv awf s.xFilters) final)

/-- Embedding of the settle-and-rank part of `YouTube.search`
(youtube.js lines 413–461): the settled outcomes of the submitted
variants arrive in submission order; when every outcome is a rejection,
the last outcome's reason is re-surfaced as a `YouTubeSearchError`
(`none` models the `TypeError` of an empty batch, which the code never
submits); otherwise each rejected outcome is replaced by the empty
object, the batch-wide highest view count is taken, and all kept
entries are deduplicated, scored and sorted.  The per-variant values
the ranking phase works from are split out as `sourcesOf` (a fulfilled
outcome contributes its aggregate, a rejected one the empty object,
youtube.js line 427) and `hvOf` (the batch-wide `highestViews`,
youtube.js line 428). -/
def sourcesOf (outcomes : List (Except JErr BSource)) :
    List (Option BSource) :=
  outcomes.map fun o => match o with
    | .ok s => some s
    | .error _ => none

/-- The batch-wide `highestViews` (youtube.js line 428). -/
def hvOf (outcomes : List (Except JErr BSource)) : Option ℚ :=
  jsMathMax ((sourcesOf outcomes).map (Option.map BSource.highestViews))

/-- Embedding of the settle-and-rank part of `YouTube.search`
(youtube.js lines 413–461); see the comment on `sourcesOf`. -/
def searchB (duration : Option ℚ) (awf : RawVideo → ℚ)
    (outcomes : List (Except JErr BSource)) :
    Option (Except YTErr (List CandB)) :=
  if outcomes.all isRej then
    match outcomes.getLast? with
    | some (.error e) => some (.error (mkYTErr e))
    | _ => none
  else
    some (.ok (jsSortDesc CandB.accuracy
      (objectValues (buildB duration (hvOf outcomes) awf
        (sourcesOf outcomes) []))))

/-- Whether a key list already holds `k`, compared the way the map
lookup compares keys. -/
def hasKey (keys : List String) (k : String) : Bool :=
  keys.any fun a => k == a

/-- First-occurrence deduplication of a key list, the specification-side
description of which identifiers survive the dedup maps. -/
def dedupFirst (keys : List String) : List String :=
  keys.foldl (fun acc k => if hasKey acc k then acc else acc ++ [k]) []

/-- The keys the Backend B dedup map should contain: the first
occurrence of each videoId key among the kept entries of the surviving
variants, in encounter order. -/
def keptKeys (sources : List (Option BSource)) : List String :=
  dedupFirst ((sources.filterMap id).flatMap fun s =>
    s.results.filterMap fun v => v.videoId?.map jsKey)

/-- One text run of a flex column (youtube.js lines 189–207): its text,
whether it carries a `navigationEndpoint` property, and the browse id
`walk` finds under that endpoint (absent when the path is missing). -/
structure RunItem where
  text : String
  hasNav : Bool
  browseId : Option String
deriving DecidableEq

/-- The parts of one `musicResponsiveListItemRenderer` the mapper reads,
each as the result of the corresponding `walk` extraction (value or
absence marker): the run lists of flex columns 0 and 1, the
play-button videoId, and the item-level browse id. -/
structure Content where
  col0 : Option (List RunItem)
  col1 : Option (List RunItem)
  playVideoId : Option String
  browseId : Option String
deriving DecidableEq

/-- The text of the first run of a column
(`getItemText(item, index)` = `getItemRuns(item, index)[0].text`,
youtube.js lines 193–195): `none` models the `TypeError` thrown when
the run list is absent or empty. -/
def runsText0 : Option (List RunItem) → Option String
  | some (r :: _) => some r.text
  | _ => none

/-- Lower-casing a string character by character, the effect of JS
`toLowerCase()` on the ASCII labels the mapper inspects. -/
def jsToLower (s : String) : String := String.mk (s.data.map Char.toLower)

/-- Character-list version of `startsWith`. -/
def charsLeadWith : List Char → List Char → Bool
  | [], _ => true
  | _ :: _, [] => false
  | p :: ps, c :: cs => p = c && charsLeadWith ps cs

/-- The JS `id.startsWith('UC')` test (youtube.js line 216). -/
def strStartsWith (s pre : String) : Bool := charsLeadWith pre.data s.data

/-- The resolved type tag of an item (youtube.js lines 199–200): the
literal `song` inside the Songs section (the secondary text run is not
read there), otherwise the lower-cased first run of column 1, with
`single` rewritten to `album`.  `none` models the `TypeError` of a
missing or empty column-1 run list. -/
def typeTagOf (layerIsSongs : Bool) (c : Content) : Option String :=
  if layerIsSongs then some "song"
  else
    (runsText0 c.col1).map fun t =>
      let tl := jsToLower t
      if tl = "single" then "album" else tl

/-- The navigable references of the filtered runs (youtube.js lines
205–207): text plus the browse id found under the navigation endpoint
(possibly the absence marker, which only crashes later). -/
def navRefs (runs : List RunItem) : List (String × Option String) :=
  (runs.filter fun r => r.hasNav).map fun r => (r.text, r.browseId)

/-- The artists/album classification reduce (youtube.js lines 214–221):
ids starting with `UC` are collected as artists in encounter order, any
other reference overwrites the album slot.  `none` models the
`TypeError` of `item.id.startsWith('UC')` when a navigable run's browse
id is the absence marker. -/
def resolveNavGo (acc : List NavRef × Option NavRef) :
    List (String × Option String) → Option (List NavRef × Option NavRef)
  | [] => some acc
  | (n, some i) :: rest =>
    if strStartsWith i "UC" then resolveNavGo (acc.1 ++ [⟨n, i⟩], acc.2) rest
    else resolveNavGo (acc.1, some ⟨n, i⟩) rest
  | (_, none) :: _ => none

/-- Entry point of the artists/album reduce with the `[[], null]`
initial accumulator. -/
def resolveNav (l : List (String × Option String)) :
    Option (List NavRef × Option NavRef) :=
  resolveNavGo ([], none) l

/-- JS falsiness of an optional string: absent or empty. -/
def jsFalsyOptStr : Option String → Bool
  | none => true
  | some s => s = ""

/-- The empty object `{}` returned for an artist/album/playlist item
without a resolvable browse id (youtube.js lines 227–232): every
property is absent. -/
def emptyItem : ItemObj :=
  { type? := none, title? := none, videoId? := none, duration? := none,
    artists := [], album := none }

/-- Embedding of the YouTubeMusic response-item mapper (youtube.js
lines 186–255) restricted to the fields `YouTubeMusic.search` later
reads.  `none` models a `TypeError` escaping the map callback, which
aborts the whole search.  Points of note, all taken from the source:
the `type` property is only assigned for the five recognised labels;
`title` is only assigned for song/video/album/playlist items; the
`videoId` property is assigned (possibly with the undefined value) for
song and video items only; an artist/album/playlist item without a
truthy browse id becomes the empty object; the album branch rewrites
`type` to the lower-cased first run; the video branch deletes the album
and, when only one filtered run exists, leaves the `duration` property
assigned with the undefined value. -/
def classify (layerIsSongs : Bool) (c : Content) : Option ItemObj :=
  match typeTagOf layerIsSongs c, c.col1 with
  | some ty, some runs1 =>
    let runs := runs1.filter fun r => r.text ≠ " • "
    if ty = "song" ∨ ty = "video" ∨ ty = "album" ∨ ty = "playlist" then
      match runsText0 c.col0 with
      | none => none
      | some title =>
        match resolveNav (navRefs runs) with
        | none => none
        | some (arts, alb) =>
          if ty = "song" then
            match runs.getLast? with
            | some last =>
              some { type? := some ty, title? := some title,
                     videoId? := some c.playVideoId,
                     duration? := some (some last.text),
                     artists := arts, album := alb }
            | none => none
          else if ty = "video" then
            match runs.reverse with
            | [] => none
            | [_] =>
              some { type? := some ty, title? := some title,
                     videoId? := some c.playVideoId,
                     duration? := some none, artists := arts, album := none }
            | last :: _ :: _ =>
              some { type? := some ty, title? := some title,
                     videoId? := some c.playVideoId,
                     duration? := some (some last.text),
                     artists := arts, album := none }
          else if jsFalsyOptStr c.browseId then some emptyItem
          else if ty = "album" then
            match runs with
            | r0 :: _ =>
              some { type? := some (jsToLower r0.text), title? := some title,
                     videoId? := none, duration? := none,
                     artists := arts, album := none }
            | [] => none
          else
            match runs.getLast? with
            | some _ =>
              some { type? := some ty, title? := some title,
                     videoId? := none, duration? := none,
                     artists := [], album := none }
            | none => none
    else if ty = "artist" then
      if jsFalsyOptStr c.browseId then some emptyItem
      else
        match runsText0 c.col0, runs.getLast? with
        | some _, some _ =>
          some { type? := some ty, title? := none, videoId? := none,
                 duration? := none, artists := [], album := none }
        | _, _ => none
    else
      some { type? := none, title? := none, videoId? := none,
             duration? := none, artists := [], album := none }
  | _, _ => none

/-- Mapping the item mapper over a section's contents (with each
content's Songs-layer flag); `none` as soon as one item's mapping
throws, aborting the whole search as in JS. -/
def classifyAll : List (Bool × Content) → Option (List ItemObj)
  | [] => some []
  | p :: rest =>
    match classify p.1 p.2 with
    | some o => (classifyAll rest).map (o :: ·)
    | none => none

/-- The composition of the response-item mapper with the ranking
pipeline of `YouTubeMusic.search`. -/
def searchAFromContents (wf : ItemObj → ℚ) (duration : Option ℚ)
    (contents : List (Bool × Content)) : Option (List CandA) :=
  (classifyAll contents).bind (searchA wf duration)

section SortLemmas

variable {α : Type} (acc : α → Option ℚ)

theorem jsGtOpt_asymm {a b : Option ℚ} (h : jsGtOpt a b = true) :
    jsGtOpt b a = false := by
  cases a <;> cases b <;> simp [jsGtOpt] at h ⊢
  exact h.le

theorem jsGtOpt_trans {a b c : Option ℚ} (h1 : jsGtOpt a b = true)
    (h2 : jsGtOpt b c = true) : jsGtOpt a c = true := by
  cases a <;> cases b <;> cases c <;> simp [jsGtOpt] at h1 h2 ⊢
  exact lt_trans h2 h1

theorem insertDesc_perm (x : α) (l : List α) :
    (insertDesc acc x l).Perm (x :: l) := by
  induction l with
  | nil => simp [insertDesc]
  | cons e rest ih =>
    by_cases h : jsGtOpt (acc x) (acc e) = true
    · simp [insertDesc, h]
    · have h' : jsGtOpt (acc x) (acc e) = false := by simpa using h
      rw [show insertDesc acc x (e :: rest) = e :: insertDesc acc x rest from by
        simp [insertDesc, h']]
      exact (ih.cons e).trans (List.Perm.swap x e rest)

theorem insertDesc_mem {x y : α} {l : List α}
    (h : y ∈ insertDesc acc x l) : y = x ∨ y ∈ l := by
  have := (insertDesc_perm acc x l).mem_iff.mp h
  simpa using this

theorem insertDesc_pairwise {x : α} {l : List α}
    (h : l.Pairwise fun a b => jsGtOpt (acc b) (acc a) = false) :
    (insertDesc acc x l).Pairwise
      fun a b => jsGtOpt (acc b) (acc a) = false := by
  induction l with
  | nil => simp [insertDesc]
  | cons e rest ih =>
    rcases List.pairwise_cons.mp h with ⟨he, hrest⟩
    by_cases hx : jsGtOpt (acc x) (acc e) = true
    · rw [show insertDesc acc x (e :: rest) = x :: e :: rest from by
        simp [insertDesc, hx]]
      refine List.pairwise_cons.mpr ⟨?_, h⟩
      intro d hd
      rcases List.mem_cons.mp hd with rfl | hd
      · exact jsGtOpt_asymm hx
      · by_contra hc
        have hdx : jsGtOpt (acc d) (acc x) = true := by simpa using hc
        have hde := jsGtOpt_trans hdx hx
        exact absurd hde (by simp [he d hd])
    · have hx' : jsGtOpt (acc x) (acc e) = false := by simpa using hx
      rw [show insertDesc acc x (e :: rest) = e :: insertDesc acc x rest from by
        simp [insertDesc, hx']]
      refine List.pairwise_cons.mpr ⟨?_, ih hrest⟩
      intro d hd
      rcases insertDesc_mem acc hd with rfl | hd
      · exact hx'
      · exact he d hd

theorem insertDesc_filter_acc (q : ℚ) {x : α} {l : List α}
    (h : l.Pairwise fun a b => jsGtOpt (acc b) (acc a) = false) :
    (insertDesc acc x l).filter (fun c => acc c == some q)
      = l.filter (fun c => acc c == some q)
        ++ (if acc x == some q then [x] else []) := by
  induction l with
  | nil => by_cases hq : (acc x == some q) = true <;> simp [insertDesc, hq]
  | cons e rest ih =>
    rcases List.pairwise_cons.mp h with ⟨he, hrest⟩
    by_cases hx : jsGtOpt (acc x) (acc e) = true
    · rw [show insertDesc acc x (e :: rest) = x :: e :: rest from by
        simp [insertDesc, hx]]
      by_cases hq : (acc x == some q) = true
      · have hxq : acc x = some q := by simpa using hq
        have hnil : ∀ d ∈ e :: rest, ¬((fun c => acc c == some q) d = true) := by
          intro d hd hc
          have hdq : acc d = some q := by simpa using hc
          rcases List.mem_cons.mp hd with rfl | hd
          · rw [hxq, hdq] at hx
            simp [jsGtOpt] at hx
          · have hfalse := he d hd
            rw [hdq] at hfalse
            rw [hxq] at hx
            have : jsGtOpt (some q) (acc e) = false := hfalse
            rw [this] at hx
            exact Bool.false_ne_true hx
        have hfe : (e :: rest).filter (fun c => acc c == some q) = [] :=
          List.filter_eq_nil_iff.mpr hnil
        simp [List.filter_cons, hq, hfe]
      · have hq' : (acc x == some q) = false := by simpa using hq
        simp [List.filter_cons, hq']
    · have hx' : jsGtOpt (acc x) (acc e) = false := by simpa using hx
      rw [show insertDesc acc x (e :: rest) = e :: insertDesc acc x rest from by
        simp [insertDesc, hx']]
      rw [List.filter_cons, List.filter_cons, ih hrest]
      by_cases hfe : (acc e == some q) = true <;> simp [hfe]

theorem jsSortDesc_go (l s0 : List α)
    (h : s0.Pairwise fun a b => jsGtOpt (acc b) (acc a) = false) :
    ((l.foldl (fun s x => insertDesc acc x s) s0).Pairwise
        fun a b => jsGtOpt (acc b) (acc a) = false)
      ∧ ∀ q : ℚ,
        (l.foldl (fun s x => insertDesc acc x s) s0).filter
            (fun c => acc c == some q)
          = s0.filter (fun c => acc c == some q)
            ++ l.filter (fun c => acc c == some q) := by
  induction l generalizing s0 with
  | nil => exact ⟨h, fun _ => by simp⟩
  | cons x rest ih =>
    have h2 := insertDesc_pairwise acc (x := x) h
    rcases ih (insertDesc acc x s0) h2 with ⟨hp, hf⟩
    refine ⟨hp, fun q => ?_⟩
    rw [List.foldl_cons, hf q, insertDesc_filter_acc acc q h, List.filter_cons]
    by_cases hq : (acc x == some q) = true <;> simp [hq]

theorem jsSortDesc_pairwise (l : List α) :
    (jsSortDesc acc l).Pairwise
      fun a b => jsGtOpt (acc b) (acc a) = false :=
  (jsSortDesc_go acc l [] (by simp)).1

theorem jsSortDesc_filter_acc (l : List α) (q : ℚ) :
    (jsSortDesc acc l).filter (fun c => acc c == some q)
      = l.filter (fun c => acc c == some q) := by
  have := (jsSortDesc_go acc l [] (by simp)).2 q
  simpa [jsSortDesc] using this

theorem jsSortDesc_perm (l : List α) : (jsSortDesc acc l).Perm l := by
  suffices h : ∀ s0 : List α,
      (l.foldl (fun s x => insertDesc acc x s) s0).Perm (s0 ++ l) by
    simpa [jsSortDesc] using h []
  induction l with
  | nil => simp
  | cons x rest ih =>
    intro s0
    have h1 := ih (insertDesc acc x s0)
    have h2 : (insertDesc acc x s0 ++ rest).Perm ((x :: s0) ++ rest) :=
      (insertDesc_perm acc x s0).append_right rest
    have h3 : ((x :: s0) ++ rest).Perm (s0 ++ x :: rest) := by
      rw [List.cons_append]
      exact List.perm_middle.symm
    exact (h1.trans h2).trans h3

end SortLemmas

section ObjectValuesLemmas

variable {α : Type}

theorem insertIdxAsc_perm (p : String × α) (l : List (String × α)) :
    (insertIdxAsc p l).Perm (p :: l) := by
  induction l with
  | nil => simp [insertIdxAsc]
  | cons q rest ih =>
    by_cases h : keyNat p.1 < keyNat q.1
    · simp [insertIdxAsc, h]
    · rw [show insertIdxAsc p (q :: rest) = q :: insertIdxAsc p rest from by
        simp [insertIdxAsc, h]]
      exact (ih.cons q).trans (List.Perm.swap p q rest)

theorem idxFold_perm (l s0 : List (String × α)) :
    (l.foldl (fun acc p => insertIdxAsc p acc) s0).Perm (s0 ++ l) := by
  induction l generalizing s0 with
  | nil => simp
  | cons p rest ih =>
    have h1 := ih (insertIdxAsc p s0)
    have h2 : (insertIdxAsc p s0 ++ rest).Perm ((p :: s0) ++ rest) :=
      (insertIdxAsc_perm p s0).append_right rest
    have h3 : ((p :: s0) ++ rest).Perm (s0 ++ p :: rest) := by
      rw [List.cons_append]
      exact List.perm_middle.symm
    exact (h1.trans h2).trans h3

theorem objectValues_perm (m : List (String × α)) :
    (objectValues m).Perm (m.map Prod.snd) := by
  unfold objectValues
  have h1 : ((m.filter fun p => isArrayIndexKey p.1).foldl
      (fun acc p => insertIdxAsc p acc) []).Perm
        (m.filter fun p => isArrayIndexKey p.1) := by
    simpa using idxFold_perm (m.filter fun p => isArrayIndexKey p.1) []
  have h2 := (h1.map Prod.snd).append_right
    ((m.filter fun p => !isArrayIndexKey p.1).map Prod.snd)
  refine h2.trans ?_
  rw [← List.map_append]
  exact (List.filter_append_perm _ m).map Prod.snd

end ObjectValuesLemmas

/-- The property of a dedup-map entry of Backend A of having been
inserted while processing the valid item `i`: the item's weight exceeds
65, its videoId property is present, its duration string is a present
string, and the clean item's accuracy exceeds 80. -/
def insertedFromA (wf : ItemObj → ℚ) (duration : Option ℚ) (i : AValid)
    (e : String × CandA) : Prop :=
  ∃ vid ds, i.base.videoId? = some vid ∧ i.base.duration? = some (some ds) ∧
    wf i.base > 65 ∧ jsGtC (cleanA wf duration i vid ds).accuracy 80 = true ∧
    e = (jsKey vid, cleanA wf duration i vid ds)

theorem stepA_mem {wf : ItemObj → ℚ} {duration : Option ℚ}
    {f0 : List (String × CandA)} {i : AValid} {f2 : List (String × CandA)}
    (h : stepA wf duration f0 i = some f2) :
    ∀ e ∈ f2, e ∈ f0 ∨ insertedFromA wf duration i e := by
  unfold stepA at h
  split at h
  · split at h
    · rename_i vid hvid
      split at h
      · cases h
        intro e he; exact .inl he
      · split at h
        · rename_i ds hds
          split at h
          · rename_i hacc
            cases h
            intro e he
            rcases List.mem_append.mp he with he | he
            · exact .inl he
            · refine .inr ⟨vid, ds, hvid, hds, by assumption, hacc, ?_⟩
              simpa using he
          · cases h
            intro e he; exact .inl he
        · exact absurd h (by simp)
    · cases h
      intro e he; exact .inl he
  · cases h
    intro e he; exact .inl he

theorem buildA_mem {wf : ItemObj → ℚ} {duration : Option ℚ}
    {items : List AValid} {f0 f : List (String × CandA)}
    (h : buildA wf duration items f0 = some f) :
    ∀ e ∈ f, e ∈ f0 ∨ ∃ i ∈ items, insertedFromA wf duration i e := by
  induction items generalizing f0 with
  | nil =>
    cases h
    intro e he; exact .inl he
  | cons i rest ih =>
    rw [buildA] at h
    cases hs : stepA wf duration f0 i with
    | none => rw [hs] at h; exact absurd h (by simp)
    | some f2 =>
      rw [hs] at h
      intro e he
      rcases ih h e he with h2 | ⟨j, hj, hins⟩
      · rcases stepA_mem hs e h2 with h3 | h3
        · exact .inl h3
        · exact .inr ⟨i, List.mem_cons_self i rest, h3⟩
      · exact .inr ⟨j, List.mem_cons_of_mem i hj, hins⟩

/-- The key of a valid item's dedup-map entry, when the videoId
property is present. -/
def keyOfItem? (i : AValid) : Option String := i.base.videoId?.map jsKey

/-- The clean item a valid item would produce, when its videoId
property is present and its duration value is a present string. -/
def cleanOfItem (wf : ItemObj → ℚ) (duration : Option ℚ) (i : AValid) :
    Option CandA :=
  match i.base.videoId?, i.base.duration? with
  | some vid, some (some ds) => some (cleanA wf duration i vid ds)
  | _, _ => none

/-- Whether a valid item passes every insertion filter of the Backend A
reducer against a fresh key: weight above 65, videoId property present,
duration value present, accuracy above 80. -/
def passA (wf : ItemObj → ℚ) (duration : Option ℚ) (i : AValid) : Bool :=
  decide (wf i.base > 65) &&
    (match i.base.videoId?, i.base.duration? with
     | some vid, some (some ds) => jsGtC (cleanA wf duration i vid ds).accuracy 80
     | _, _ => false)

/-- The find predicate for the first item that would claim key `k`. -/
def findPredA (wf : ItemObj → ℚ) (duration : Option ℚ) (k : String)
    (i : AValid) : Bool :=
  passA wf duration i && (keyOfItem? i == some k)

/-- What the dedup map ends up holding at key `k`: the clean item of
the first valid item that passes every filter with that key, if any. -/
def tailA (wf : ItemObj → ℚ) (duration : Option ℚ) (k : String)
    (items : List AValid) : List (String × CandA) :=
  match items.find? (findPredA wf duration k) with
  | some i =>
    match cleanOfItem wf duration i with
    | some c => [(k, c)]
    | none => []
  | none => []

theorem lookupAppend {β : Type} (l1 l2 : List (String × β)) (k : String) :
    (l1 ++ l2).lookup k = ((l1.lookup k).or (l2.lookup k)) := by
  induction l1 with
  | nil => simp
  | cons e rest ih =>
    by_cases h : k == e.1
    · simp [List.lookup, h]
    · have h' : (k == e.1) = false := by simpa using h
      simp [List.lookup, h', ih]

theorem buildA_filter {wf : ItemObj → ℚ} {duration : Option ℚ}
    (k : String) {items : List AValid} {f0 f : List (String × CandA)}
    (h : buildA wf duration items f0 = some f) :
    f.filter (fun e => e.1 == k)
      = f0.filter (fun e => e.1 == k)
        ++ (if (f0.lookup k).isSome then [] else tailA wf duration k items) := by
  induction items generalizing f0 with
  | nil =>
    cases h
    by_cases hl : (f.lookup k).isSome <;> simp [tailA, hl]
  | cons i rest ih =>
    rw [buildA] at h
    by_cases hw : wf i.base > 65
    · cases hvid : i.base.videoId? with
      | none =>
        have hs : stepA wf duration f0 i = some f0 := by
          simp [stepA, hw, hvid]
        rw [hs] at h
        have hp : findPredA wf duration k i = false := by
          simp [findPredA, keyOfItem?, hvid]
        rw [ih h]
        by_cases hl : (f0.lookup k).isSome <;>
          simp [tailA, hl, List.find?_cons, hp]
      | some vid =>
        by_cases hlk : (f0.lookup (jsKey vid)).isSome
        · have hs : stepA wf duration f0 i = some f0 := by
            simp [stepA, hw, hvid, hlk]
          rw [hs] at h
          rw [ih h]
          by_cases hk : jsKey vid = k
          · subst hk
            simp [hlk]
          · have hp : findPredA wf duration k i = false := by
              simp [findPredA, keyOfItem?, hvid, hk]
            by_cases hl : (f0.lookup k).isSome <;>
              simp [tailA, hl, List.find?_cons, hp]
        · cases hds : i.base.duration? with
          | none =>
            have hs : stepA wf duration f0 i = none := by
              simp [stepA, hw, hvid, hlk, hds]
            rw [hs] at h
            exact absurd h (by simp)
          | some dsv =>
            cases dsv with
            | none =>
              have hs : stepA wf duration f0 i = none := by
                simp [stepA, hw, hvid, hlk, hds]
              rw [hs] at h
              exact absurd h (by simp)
            | some ds =>
              by_cases hacc : jsGtC (cleanA wf duration i vid ds).accuracy 80 = true
              · have hs : stepA wf duration f0 i
                    = some (f0 ++ [(jsKey vid, cleanA wf duration i vid ds)]) := by
                  simp [stepA, hw, hvid, hlk, hds, hacc]
                rw [hs] at h
                rw [ih h]
                have hpass : passA wf duration i = true := by
                  simp [passA, hw, hvid, hds, hacc]
                by_cases hk : jsKey vid = k
                · subst hk
                  have hp : findPredA wf duration (jsKey vid) i = true := by
                    simp [findPredA, hpass, keyOfItem?, hvid]
                  have hlf0 : (f0.lookup (jsKey vid)).isSome = false := by
                    rw [Bool.eq_false_iff]
                    exact hlk
                  have hl2 : ((f0 ++ [(jsKey vid, cleanA wf duration i vid ds)]).lookup
                      (jsKey vid)).isSome = true := by
                    rw [lookupAppend]
                    rcases hf0 : f0.lookup (jsKey vid) with _ | v
                    · simp [List.lookup]
                    · rw [hf0] at hlf0; simp at hlf0
                  rw [List.filter_append, hl2]
                  simp only [if_true]
                  have hcl : cleanOfItem wf duration i
                      = some (cleanA wf duration i vid ds) := by
                    simp [cleanOfItem, hvid, hds]
                  simp [tailA, List.find?_cons, hp, hcl, hlf0]
                · have hp : findPredA wf duration k i = false := by
                    simp [findPredA, keyOfItem?, hvid, hk]
                  have hl2 : ((f0 ++ [(jsKey vid, cleanA wf duration i vid ds)]).lookup
                      k) = f0.lookup k := by
                    rw [lookupAppend]
                    have : ([(jsKey vid, cleanA wf duration i vid ds)].lookup k) =
                        (none : Option CandA) := by
                      have : (k == jsKey vid) = false := by
                        simp
                        exact fun hc => absurd hc.symm hk
                      simp [List.lookup, this]
                    rw [this]
                    cases f0.lookup k <;> rfl
                  rw [List.filter_append, hl2]
                  have hfk : ([(jsKey vid, cleanA wf duration i vid ds)].filter
                      (fun e => e.1 == k)) = [] := by
                    have : (jsKey vid == k) = false := by
                      simp
                      exact hk
                    simp [List.filter, this]
                  rw [hfk]
                  by_cases hl : (f0.lookup k).isSome <;>
                    simp [tailA, hl, List.find?_cons, hp]
              · have hs : stepA wf duration f0 i = some f0 := by
                  simp [stepA, hw, hvid, hlk, hds, hacc]
                rw [hs] at h
                rw [ih h]
                have hp : findPredA wf duration k i = false := by
                  simp [findPredA, passA, hvid, hds, hacc]
                by_cases hl : (f0.lookup k).isSome <;>
                  simp [tailA, hl, List.find?_cons, hp]
    · have hs : stepA wf duration f0 i = some f0 := by
        simp [stepA, hw]
      rw [hs] at h
      have hp : findPredA wf duration k i = false := by
        simp [findPredA, passA, hw]
      rw [ih h]
      by_cases hl : (f0.lookup k).isSome <;>
        simp [tailA, hl, List.find?_cons, hp]

theorem hasKey_cons (k0 : String) (keys : List String) (k : String) :
    hasKey (k0 :: keys) k = ((k == k0) || hasKey keys k) := by
  simp [hasKey]

theorem hasKey_append (l1 l2 : List String) (k : String) :
    hasKey (l1 ++ l2) k = (hasKey l1 k || hasKey l2 k) := by
  simp [hasKey, List.any_append]

theorem lookup_isSome_eq_hasKey {β : Type} (f : List (String × β))
    (k : String) : (f.lookup k).isSome = hasKey (f.map Prod.fst) k := by
  induction f with
  | nil => simp [hasKey]
  | cons e rest ih =>
    rw [List.map_cons, hasKey_cons, ← ih]
    by_cases h : (k == e.1) = true
    · simp [List.lookup, h]
    · have h' : (k == e.1) = false := by simpa using h
      simp [List.lookup, h']

/-- First-occurrence deduplication continued from an already-collected
accumulator; `dedupFirst` is the empty-accumulator case. -/
def dedupGo (acc : List String) (keys : List String) : List String :=
  keys.foldl (fun acc k => if hasKey acc k then acc else acc ++ [k]) acc

theorem dedupFirst_eq_go (keys : List String) :
    dedupFirst keys = dedupGo [] keys := rfl

theorem dedupGo_cons (acc : List String) (k0 : String) (ks : List String) :
    dedupGo acc (k0 :: ks)
      = dedupGo (if hasKey acc k0 then acc else acc ++ [k0]) ks := rfl

theorem dedupGo_append (acc : List String) (l1 l2 : List String) :
    dedupGo acc (l1 ++ l2) = dedupGo (dedupGo acc l1) l2 := by
  simp [dedupGo, List.foldl_append]

theorem dedupGo_hasKey (keys : List String) (acc : List String)
    (k : String) :
    hasKey (dedupGo acc keys) k = (hasKey acc k || hasKey keys k) := by
  induction keys generalizing acc with
  | nil => simp [dedupGo, hasKey]
  | cons k0 rest ih =>
    rw [dedupGo_cons, ih, hasKey_cons]
    by_cases h : hasKey acc k0 = true
    · rw [if_pos h]
      by_cases hk : k = k0
      · subst hk
        simp [h]
      · have hb : (k == k0) = false := by simpa using hk
        rw [hb]
        simp
    · rw [if_neg (by simp [h]), hasKey_append, hasKey_cons]
      simp [hasKey, Bool.or_assoc]

/-- The predicate matching a kept raw video whose map key would be `k`. -/
def predB (k : String) (v : RawVideo) : Bool :=
  (v.videoId?.map jsKey) == some k

theorem filterMapKeys_cons_none (vt vty va vdt : String) (vds : ℚ)
    (vvw : Option ℚ) (rest : List RawVideo) :
    (List.filterMap (fun v => Option.map jsKey v.videoId?)
        ((⟨none, vt, vty, va, vdt, vds, vvw⟩ : RawVideo) :: rest))
      = List.filterMap (fun v => Option.map jsKey v.videoId?) rest := rfl

theorem filterMapKeys_cons_some (vid : Option String)
    (vt vty va vdt : String) (vds : ℚ) (vvw : Option ℚ)
    (rest : List RawVideo) :
    (List.filterMap (fun v => Option.map jsKey v.videoId?)
        ((⟨some vid, vt, vty, va, vdt, vds, vvw⟩ : RawVideo) :: rest))
      = jsKey vid
          :: List.filterMap (fun v => Option.map jsKey v.videoId?) rest := rfl

theorem keys_hasKey_eq_find (k : String) (results : List RawVideo) :
    hasKey (results.filterMap fun v => v.videoId?.map jsKey) k
      = (results.find? (predB k)).isSome := by
  induction results with
  | nil => simp [hasKey]
  | cons v rest ih =>
    obtain ⟨vv, vt, vty, va, vdt, vds, vvw⟩ := v
    cases vv with
    | none =>
      have hp : predB k ⟨none, vt, vty, va, vdt, vds, vvw⟩ = false := by
        simp [predB]
      rw [filterMapKeys_cons_none, List.find?_cons_of_neg _ (by simp [hp])]
      exact ih
    | some vid =>
      by_cases hk : jsKey vid = k
      · subst hk
        have hp : predB (jsKey vid) ⟨some vid, vt, vty, va, vdt, vds, vvw⟩
            = true := by simp [predB]
        rw [filterMapKeys_cons_some, List.find?_cons_of_pos _ hp, hasKey_cons]
        simp
      · have hp : predB k ⟨some vid, vt, vty, va, vdt, vds, vvw⟩ = false := by
          simp [predB]
          exact hk
        have hb : (k == jsKey vid) = false := by
          simp
          exact fun hc => absurd hc.symm hk
        rw [filterMapKeys_cons_some, List.find?_cons_of_neg _ (by simp [hp]),
          hasKey_cons, hb, ← ih]
        simp

theorem insertB_fold_keys (duration : Option ℚ) (hv : Option ℚ)
    (awf : RawVideo → ℚ) (xf : List String) (results : List RawVideo)
    (f0 : List (String × CandB)) :
    ((results.foldl (insertB duration hv awf xf) f0).map Prod.fst)
      = dedupGo (f0.map Prod.fst)
          (results.filterMap fun v => v.videoId?.map jsKey) := by
  induction results generalizing f0 with
  | nil => simp [dedupGo]
  | cons v rest ih =>
    obtain ⟨vv, vt, vty, va, vdt, vds, vvw⟩ := v
    cases vv with
    | none =>
      rw [List.foldl_cons,
        show insertB duration hv awf xf f0 ⟨none, vt, vty, va, vdt, vds, vvw⟩
          = f0 from rfl,
        ih, filterMapKeys_cons_none]
    | some vid =>
      by_cases hl : (f0.lookup (jsKey vid)).isSome = true
      · rw [List.foldl_cons,
          show insertB duration hv awf xf f0
              ⟨some vid, vt, vty, va, vdt, vds, vvw⟩ = f0 from by
            simp [insertB, hl], ih]
        have hc : hasKey (f0.map Prod.fst) (jsKey vid) = true := by
          rw [← lookup_isSome_eq_hasKey]; exact hl
        rw [filterMapKeys_cons_some, dedupGo_cons, if_pos hc]
      · have hl' : (f0.lookup (jsKey vid)).isSome = false := by
          rw [Bool.eq_false_iff]; exact hl
        rw [List.foldl_cons,
          show insertB duration hv awf xf f0
              ⟨some vid, vt, vty, va, vdt, vds, vvw⟩
            = f0 ++ [(jsKey vid, cleanB duration hv awf xf
                ⟨some vid, vt, vty, va, vdt, vds, vvw⟩ vid)] from by
            simp [insertB, hl'], ih]
        have hc : hasKey (f0.map Prod.fst) (jsKey vid) = false := by
          rw [← lookup_isSome_eq_hasKey]; exact hl'
        rw [filterMapKeys_cons_some, dedupGo_cons, if_neg (by simp [hc]),
          List.map_append]
        rfl

theorem buildB_keys (duration : Option ℚ) (hv : Option ℚ)
    (awf : RawVideo → ℚ) (sources : List (Option BSource))
    (f0 : List (String × CandB)) :
    ((buildB duration hv awf sources f0).map Prod.fst)
      = dedupGo (f0.map Prod.fst)
          ((sources.filterMap id).flatMap fun s =>
            s.results.filterMap fun v => v.videoId?.map jsKey) := by
  induction sources generalizing f0 with
  | nil => simp [buildB, dedupGo]
  | cons os rest ih =>
    cases os with
    | none =>
      rw [buildB, ih]
      simp [List.filterMap_cons]
    | some s =>
      rw [buildB, ih, insertB_fold_keys]
      rw [show ((some s :: rest).filterMap id) = s :: rest.filterMap id from by
        simp [List.filterMap_cons]]
      rw [List.flatMap_cons, dedupGo_append]

theorem insertB_fold_lookup (duration : Option ℚ) (hv : Option ℚ)
    (awf : RawVideo → ℚ) (xf : List String) (k : String)
    (results : List RawVideo) (f0 : List (String × CandB)) :
    (((results.foldl (insertB duration hv awf xf) f0).lookup k).isSome)
      = ((f0.lookup k).isSome || (results.find? (predB k)).isSome) := by
  rw [lookup_isSome_eq_hasKey, insertB_fold_keys, dedupGo_hasKey,
    keys_hasKey_eq_find, lookup_isSome_eq_hasKey]

theorem insertB_fold_mem {duration : Option ℚ} {hv : Option ℚ}
    {awf : RawVideo → ℚ} {xf : List String} {results : List RawVideo}
    {f0 : List (String × CandB)} :
    ∀ e ∈ results.foldl (insertB duration hv awf xf) f0,
      e ∈ f0 ∨ ∃ v ∈ results, ∃ vid, v.videoId? = some vid
        ∧ e = (jsKey vid, cleanB duration hv awf xf v vid) := by
  induction results generalizing f0 with
  | nil =>
    intro e he; exact .inl he
  | cons v rest ih =>
    intro e he
    rw [List.foldl_cons] at he
    rcases ih e he with h1 | ⟨v2, hv2, vid, hvid, hee⟩
    · unfold insertB at h1
      split at h1
      · rename_i vid hvid
        split at h1
        · exact .inl h1
        · rcases List.mem_append.mp h1 with h2 | h2
          · exact .inl h2
          · refine .inr ⟨v, List.mem_cons_self v rest, vid, hvid, ?_⟩
            simpa using h2
      · exact .inl h1
    · exact .inr ⟨v2, List.mem_cons_of_mem v hv2, vid, hvid, hee⟩

theorem buildB_mem {duration : Option ℚ} {hv : Option ℚ}
    {awf : RawVideo → ℚ} {sources : List (Option BSource)}
    {f0 : List (String × CandB)} :
    ∀ e ∈ buildB duration hv awf sources f0,
      e ∈ f0 ∨ ∃ s, some s ∈ sources ∧ ∃ v ∈ s.results, ∃ vid,
        v.videoId? = some vid
          ∧ e = (jsKey vid, cleanB duration hv awf s.xFilters v vid) := by
  induction sources generalizing f0 with
  | nil =>
    intro e he; exact .inl he
  | cons os rest ih =>
    cases os with
    | none =>
      intro e he
      rw [buildB] at he
      rcases ih e he with h1 | ⟨s, hs, rest2⟩
      · exact .inl h1
      · exact .inr ⟨s, List.mem_cons_of_mem none hs, rest2⟩
    | some s =>
      intro e he
      rw [buildB] at he
      rcases ih e he with h1 | ⟨s2, hs2, rest2⟩
      · rcases insertB_fold_mem e h1 with h2 | ⟨v, hvm, vid, hvid, hee⟩
        · exact .inl h2
        · exact .inr ⟨s, List.mem_cons_self (some s) rest, v, hvm, vid, hvid, hee⟩
      · exact .inr ⟨s2, List.mem_cons_of_mem (some s) hs2, rest2⟩

/-- The first kept raw video (with its variant's filters) whose map key
is `k`, scanning surviving variants in submission order. -/
def firstKeptB (k : String) : List (Option BSource) →
    Option (List String × RawVideo)
  | [] => none
  | none :: rest => firstKeptB k rest
  | some s :: rest =>
    match s.results.find? (predB k) with
    | some v => some (s.xFilters, v)
    | none => firstKeptB k rest

/-- What the Backend B dedup map ends up holding at key `k`. -/
def tailB (duration : Option ℚ) (hv : Option ℚ) (awf : RawVideo → ℚ)
    (k : String) (sources : List (Option BSource)) : List (String × CandB) :=
  match firstKeptB k sources with
  | some (xf, v) =>
    match v.videoId? with
    | some vid => [(k, cleanB duration hv awf xf v vid)]
    | none => []
  | none => []

theorem insertB_fold_filter (duration : Option ℚ) (hv : Option ℚ)
    (awf : RawVideo → ℚ) (xf : List String) (k : String)
    (results : List RawVideo) (f0 : List (String × CandB)) :
    ((results.foldl (insertB duration hv awf xf) f0).filter
        (fun e => e.1 == k))
      = f0.filter (fun e => e.1 == k)
        ++ (if (f0.lookup k).isSome then []
            else match results.find? (predB k) with
              | some v =>
                match v.videoId? with
                | some vid => [(k, cleanB duration hv awf xf v vid)]
                | none => []
              | none => []) := by
  induction results generalizing f0 with
  | nil =>
    by_cases hl : (f0.lookup k).isSome = true <;> simp [hl]
  | cons v rest ih =>
    cases hv0 : v.videoId? with
    | none =>
      rw [List.foldl_cons,
        show insertB duration hv awf xf f0 v = f0 from by simp [insertB, hv0],
        ih]
      have hp : predB k v = false := by simp [predB, hv0]
      by_cases hl : (f0.lookup k).isSome = true <;>
        simp [hl, List.find?_cons, hp]
    | some vid =>
      by_cases hlk : (f0.lookup (jsKey vid)).isSome = true
      · rw [List.foldl_cons,
          show insertB duration hv awf xf f0 v = f0 from by
            simp [insertB, hv0, hlk], ih]
        by_cases hk : jsKey vid = k
        · subst hk
          simp [hlk]
        · have hp : predB k v = false := by
            simp [predB, hv0]
            exact hk
          by_cases hl : (f0.lookup k).isSome = true <;>
            simp [hl, List.find?_cons, hp]
      · have hlk' : (f0.lookup (jsKey vid)).isSome = false := by
          rw [Bool.eq_false_iff]; exact hlk
        rw [List.foldl_cons,
          show insertB duration hv awf xf f0 v
              = f0 ++ [(jsKey vid, cleanB duration hv awf xf v vid)] from by
            simp [insertB, hv0, hlk'], ih]
        by_cases hk : jsKey vid = k
        · subst hk
          have hp : predB (jsKey vid) v = true := by simp [predB, hv0]
          have hl2 : ((f0 ++ [(jsKey vid, cleanB duration hv awf xf v vid)]).lookup
              (jsKey vid)).isSome = true := by
            rw [lookupAppend]
            rcases hf0 : f0.lookup (jsKey vid) with _ | w
            · simp [List.lookup]
            · rw [hf0] at hlk'; simp at hlk'
          rw [List.filter_append, hl2]
          simp only [if_true]
          simp [List.find?_cons, hp, hlk', hv0]
        · have hp : predB k v = false := by
            simp [predB, hv0]
            exact hk
          have hl2 : ((f0 ++ [(jsKey vid, cleanB duration hv awf xf v vid)]).lookup
              k) = f0.lookup k := by
            rw [lookupAppend]
            have hnone : ([(jsKey vid, cleanB duration hv awf xf v vid)].lookup k)
                = (none : Option CandB) := by
              have : (k == jsKey vid) = false := by
                simp
                exact fun hc => absurd hc.symm hk
              simp [List.lookup, this]
            rw [hnone]
            cases f0.lookup k <;> rfl
          have hfk : ([(jsKey vid, cleanB duration hv awf xf v vid)].filter
              (fun e => e.1 == k)) = [] := by
            have : (jsKey vid == k) = false := by
              simp
              exact hk
            simp [List.filter, this]
          rw [List.filter_append, hl2, hfk]
          by_cases hl : (f0.lookup k).isSome = true <;>
            simp [hl, List.find?_cons, hp]

theorem buildB_filter {duration : Option ℚ} {hv : Option ℚ}
    {awf : RawVideo → ℚ} (k : String) (sources : List (Option BSource))
    (f0 : List (String × CandB)) :
    ((buildB duration hv awf sources f0).filter (fun e => e.1 == k))
      = f0.filter (fun e => e.1 == k)
        ++ (if (f0.lookup k).isSome then []
            else tailB duration hv awf k sources) := by
  induction sources generalizing f0 with
  | nil =>
    by_cases hl : (f0.lookup k).isSome = true <;> simp [buildB, tailB, firstKeptB, hl]
  | cons os rest ih =>
    cases os with
    | none =>
      rw [buildB, ih]
      by_cases hl : (f0.lookup k).isSome = true <;>
        simp [tailB, firstKeptB, hl]
    | some s =>
      rw [buildB, ih, insertB_fold_filter, insertB_fold_lookup]
      by_cases hl : (f0.lookup k).isSome = true
      · simp [hl]
      · have hl' : (f0.lookup k).isSome = false := by
          rw [Bool.eq_false_iff]; exact hl
        cases hf : s.results.find? (predB k) with
        | none =>
          simp [hl', hf, tailB, firstKeptB]
        | some v =>
          have : tailB duration hv awf k (some s :: rest)
              = match v.videoId? with
                | some vid => [(k, cleanB duration hv awf s.xFilters v vid)]
                | none => [] := by
            simp [tailB, firstKeptB, hf]
          rw [this]
          have hvform : ∃ vid, v.videoId? = some vid := by
            have hmem := List.find?_some hf
            rcases hv0 : v.videoId? with _ | vid
            · rw [predB, hv0] at hmem; simp at hmem
            · exact ⟨vid, rfl⟩
          rcases hvform with ⟨vid, hv0⟩
          simp [hl', hf, hv0]

theorem searchA_inv {wf : ItemObj → ℚ} {duration : Option ℚ}
    {items : List ItemObj} {l : List CandA}
    (h : searchA wf duration items = some l) :
    ∃ m, buildA wf duration (validSectionsA items) [] = some m
      ∧ l = jsSortDesc CandA.accuracy (objectValues m) := by
  unfold searchA at h
  cases hm : buildA wf duration (validSectionsA items) [] with
  | none => rw [hm] at h; exact absurd h (by simp)
  | some m =>
    rw [hm] at h
    exact ⟨m, rfl, by simpa using h.symm⟩

theorem searchA_mem {wf : ItemObj → ℚ} {duration : Option ℚ}
    {items : List ItemObj} {l : List CandA}
    (h : searchA wf duration items = some l) :
    ∀ c ∈ l, ∃ i ∈ validSectionsA items, ∃ vid ds,
      i.base.videoId? = some vid ∧ i.base.duration? = some (some ds)
        ∧ wf i.base > 65 ∧ jsGtC (cleanA wf duration i vid ds).accuracy 80 = true
        ∧ c = cleanA wf duration i vid ds := by
  rcases searchA_inv h with ⟨m, hm, hl⟩
  intro c hc
  have hc2 : c ∈ objectValues m :=
    ((jsSortDesc_perm CandA.accuracy (objectValues m)).mem_iff).mp (hl ▸ hc)
  have hc3 : c ∈ m.map Prod.snd := (objectValues_perm m).mem_iff.mp hc2
  rcases List.mem_map.mp hc3 with ⟨e, he, hesnd⟩
  rcases buildA_mem hm e he with h0 | ⟨i, hi, vid, ds, hvid, hds, hw, hacc, hee⟩
  · exact absurd h0 (by simp)
  · refine ⟨i, hi, vid, ds, hvid, hds, hw, hacc, ?_⟩
    rw [← hesnd, hee]

theorem validSectionsA_mem {items : List ItemObj} :
    ∀ i ∈ validSectionsA items,
      i.base ∈ items ∧ i.base.type? = some i.type
        ∧ (i.type = "song" ∨ i.type = "video")
        ∧ i.base.title? = some i.title := by
  intro i hi
  unfold validSectionsA at hi
  rcases List.mem_filterMap.mp hi with ⟨x, hx, hfx⟩
  rcases ht : x.title? with _ | t <;> rw [ht] at hfx
  · rcases hty : x.type? with _ | ty <;> rw [hty] at hfx <;> simp at hfx
  · rcases hty : x.type? with _ | ty <;> rw [hty] at hfx
    · simp at hfx
    · have hfx2 : (if ty = "song" ∨ ty = "video"
          then some (⟨x, t, ty⟩ : AValid) else none) = some i := hfx
      by_cases hsv : ty = "song" ∨ ty = "video"
      · rw [if_pos hsv] at hfx2
        cases hfx2
        exact ⟨hx, hty, hsv, ht⟩
      · rw [if_neg hsv] at hfx2
        simp at hfx2

theorem classifyAll_mem {contents : List (Bool × Content)}
    {objs : List ItemObj} (h : classifyAll contents = some objs) :
    ∀ o ∈ objs, ∃ p ∈ contents, classify p.1 p.2 = some o := by
  induction contents generalizing objs with
  | nil =>
    cases h
    intro o ho; exact absurd ho (by simp)
  | cons p rest ih =>
    rw [classifyAll] at h
    cases hp : classify p.1 p.2 with
    | none => rw [hp] at h; exact absurd h (by simp)
    | some o0 =>
      rw [hp] at h
      cases hr : classifyAll rest with
      | none => rw [hr] at h; exact absurd h (by simp)
      | some objs0 =>
        rw [hr] at h
        have hobjs : objs = o0 :: objs0 := by
          have := h.symm
          simpa using this
        subst hobjs
        intro o ho
        rcases List.mem_cons.mp ho with rfl | ho
        · exact ⟨p, List.mem_cons_self p rest, hp⟩
        · rcases ih hr o ho with ⟨p2, hp2, hc2⟩
          exact ⟨p2, List.mem_cons_of_mem p hp2, hc2⟩

theorem searchB_ok_inv {duration : Option ℚ} {awf : RawVideo → ℚ}
    {outcomes : List (Except JErr BSource)} {l : List CandB}
    (h : searchB duration awf outcomes = some (.ok l)) :
    outcomes.all isRej = false
      ∧ l = jsSortDesc CandB.accuracy
          (objectValues (buildB duration (hvOf outcomes) awf
            (sourcesOf outcomes) [])) := by
  unfold searchB at h
  by_cases hr : outcomes.all isRej = true
  · rw [if_pos hr] at h
    exfalso
    cases hgl : outcomes.getLast? with
    | none => rw [hgl] at h; simp at h
    | some o =>
      cases o with
      | error e => rw [hgl] at h; simp at h
      | ok s => rw [hgl] at h; simp at h
  · rw [if_neg hr] at h
    refine ⟨by rw [Bool.eq_false_iff]; exact hr, ?_⟩
    simpa using h.symm

theorem searchB_mem {duration : Option ℚ} {awf : RawVideo → ℚ}
    {outcomes : List (Except JErr BSource)} {l : List CandB}
    (h : searchB duration awf outcomes = some (.ok l)) :
    ∀ c ∈ l, ∃ s, some s ∈ sourcesOf outcomes ∧ ∃ v ∈ s.results, ∃ vid,
      v.videoId? = some vid
        ∧ c = cleanB duration (hvOf outcomes) awf s.xFilters v vid := by
  rcases searchB_ok_inv h with ⟨hrej, hl⟩
  intro c hc
  have hc2 : c ∈ objectValues (buildB duration (hvOf outcomes) awf
      (sourcesOf outcomes) []) :=
    ((jsSortDesc_perm CandB.accuracy _).mem_iff).mp (hl ▸ hc)
  have hc3 : c ∈ (buildB duration (hvOf outcomes) awf
      (sourcesOf outcomes) []).map Prod.snd :=
    (objectValues_perm _).mem_iff.mp hc2
  rcases List.mem_map.mp hc3 with ⟨e, he, hesnd⟩
  rcases buildB_mem e he with h0 | ⟨s, hs, v, hv, vid, hvid, hee⟩
  · exact absurd h0 (by simp)
  · refine ⟨s, hs, v, hv, vid, hvid, ?_⟩
    rw [← hesnd, hee]

theorem typeBonus_pos (ty : String) : 0 < typeBonus ty := by
  unfold typeBonus
  split
  · norm_num
  · split <;> norm_num

theorem typeBonus_le (ty : String) : typeBonus ty ≤ 50 := by
  unfold typeBonus
  split
  · norm_num
  · split <;> norm_num

theorem boostA_le_100 {ty : String} {a : ℚ} (h : a ≤ 100) :
    boostA ty a ≤ 100 := by
  have h1 := typeBonus_pos ty
  have h2 := typeBonus_le ty
  unfold boostA
  nlinarith

theorem boostA_mono {ty : String} {a b : ℚ} (h : a ≤ b) :
    boostA ty a ≤ boostA ty b := by
  have h1 := typeBonus_pos ty
  have h2 := typeBonus_le ty
  unfold boostA
  nlinarith

theorem durPenalty_nonneg {duration : Option ℚ} {ms : ℚ}
    (hd : duration = none ∨ ∃ d, duration = some d ∧ 0 ≤ d) :
    0 ≤ durPenalty duration ms := by
  rcases hd with rfl | ⟨d, rfl, hd0⟩
  · norm_num [durPenalty]
  · rw [show durPenalty (some d) ms
        = if d = 0 then 1 / 2 else |d - ms| / d from rfl]
    by_cases hz : d = 0
    · rw [if_pos hz]; norm_num
    · rw [if_neg hz]
      exact div_nonneg (abs_nonneg _) hd0

theorem accuracyBCore_le_100 {dpen r aw : ℚ} (hpen : 0 ≤ dpen)
    (hr1 : r ≤ 1) : accuracyBCore dpen r aw ≤ 100 := by
  simp only [accuracyBCore]
  split <;> nlinarith

theorem accuracyBCore_mono_r {dpen r1 r2 aw : ℚ} (hpen : 0 ≤ dpen)
    (hr : r1 ≤ r2) : accuracyBCore dpen r1 aw ≤ accuracyBCore dpen r2 aw := by
  simp only [accuracyBCore]
  split <;> nlinarith

theorem le_foldlMax (rest : List ℚ) :
    ∀ init x, (x = init ∨ x ∈ rest) → x ≤ rest.foldl max init := by
  induction rest with
  | nil =>
    intro init x h
    rcases h with rfl | h
    · exact le_refl x
    · exact absurd h (by simp)
  | cons y t ih =>
    intro init x h
    rw [List.foldl_cons]
    rcases h with rfl | h
    · exact le_trans (le_max_left x y) (ih (max x y) (max x y) (.inl rfl))
    · rcases List.mem_cons.mp h with rfl | h
      · exact le_trans (le_max_right init x) (ih (max init x) (max init x) (.inl rfl))
      · exact ih (max init y) x (.inr h)

theorem jsMathMax_ge {l : List (Option ℚ)} {M x : ℚ}
    (h : jsMathMax l = some M) (hx : some x ∈ l) : x ≤ M := by
  unfold jsMathMax at h
  split at h
  · exact absurd h (by simp)
  · cases hfm : l.filterMap id with
    | nil => rw [hfm] at h; exact absurd h (by simp)
    | cons x0 rest =>
      rw [hfm] at h
      have hM : M = rest.foldl max x0 := by simpa using h.symm
      have hmem : x ∈ l.filterMap id := List.mem_filterMap.mpr ⟨some x, hx, rfl⟩
      rw [hfm] at hmem
      subst hM
      rcases List.mem_cons.mp hmem with rfl | hmem
      · exact le_foldlMax rest x x (.inl rfl)
      · exact le_foldlMax rest x0 x (.inr hmem)

theorem jsMathMax_nonneg {l : List (Option ℚ)} {M : ℚ}
    (h : jsMathMax l = some M) (hall : ∀ x : ℚ, some x ∈ l → 0 ≤ x) :
    0 ≤ M := by
  unfold jsMathMax at h
  split at h
  · exact absurd h (by simp)
  · cases hfm : l.filterMap id with
    | nil => rw [hfm] at h; exact absurd h (by simp)
    | cons x0 rest =>
      rw [hfm] at h
      have hM : M = rest.foldl max x0 := by simpa using h.symm
      have hx0 : x0 ∈ l.filterMap id := by rw [hfm]; exact List.mem_cons_self x0 rest
      rcases List.mem_filterMap.mp hx0 with ⟨o, ho, hid⟩
      have ho2 : o = some x0 := hid
      subst ho2
      have h0 : (0 : ℚ) ≤ x0 := hall x0 ho
      have h1 : x0 ≤ rest.foldl max x0 := le_foldlMax rest x0 x0 (.inl rfl)
      rw [hM]
      exact le_trans h0 h1

theorem mem_sourcesOf {outcomes : List (Except JErr BSource)} {s : BSource} :
    some s ∈ sourcesOf outcomes ↔ Except.ok s ∈ outcomes := by
  unfold sourcesOf
  constructor
  · intro h
    rcases List.mem_map.mp h with ⟨o, ho, heq⟩
    cases o with
    | ok s2 =>
      have : s2 = s := by simpa using heq
      subst this
      exact ho
    | error e => simp at heq
  · intro h
    exact List.mem_map.mpr ⟨.ok s, h, rfl⟩

theorem hvOf_ge {outcomes : List (Except JErr BSource)} {M : ℚ} {s : BSource}
    (h : hvOf outcomes = some M) (hs : some s ∈ sourcesOf outcomes) :
    s.highestViews ≤ M := by
  unfold hvOf at h
  exact jsMathMax_ge h (List.mem_map.mpr ⟨some s, hs, rfl⟩)

/-- Claim C4: the spec says a call supplying artists, a non-empty track
title and a duration but no album is valid, with the absent album
treated as the empty string.  The code instead rejects an absent album:
`_getSearchArgs` throws the album validation error, contradicting the
method's own JSDoc, which marks `album` as optional and documents the
numeric-album reinterpretation that can only ever leave `album`
undefined. -/
theorem c4_absent_album_rejected :
    getSearchArgs (.arr [.str "Daft Punk"]) (.str "One More Time") .undef
      (.num 320000) = .error "<album> must be a valid string" := rfl

/-- Claim C7: a numeric value in the track position is reinterpreted as
the duration (leaving `track` absent) by the shuffling phase, and the
whole call then fails validation with the track error, before any
network activity. -/
theorem c7_numeric_track_becomes_duration :
    shuffleArgs .undef (.num 228000) .undef .undef
        = ([], .undef, .undef, .num 228000) ∧
      getSearchArgs .undef (.num 228000) .undef .undef
        = .error "<track> must be a valid string" :=
  ⟨rfl, rfl⟩

/-- Claim C10: a supplied expected duration of exactly 0 passes
validation (zero is falsy, so the duration type check is skipped), and
both backends score with it exactly as if no duration had been given:
the fixed neutral penalty of 50 is applied and the zero duration is
never used as a divisor. -/
theorem c10_zero_duration_neutral :
    getSearchArgs (.arr [.str "A"]) (.str "T") (.str "") (.num 0)
        = .ok (["A"], "T", "", .num 0) ∧
      (∀ w ty dm, accuracyA w (some 0) ty dm = accuracyA w none ty dm) ∧
      (∀ w ty dm, accuracyA w (some 0) ty dm = some (boostA ty (w - 50))) ∧
      (∀ ms, durPenalty (some 0) ms = durPenalty none ms) ∧
      (∀ hv aw v s, accuracyB (some 0) hv aw v s = accuracyB none hv aw v s) := by
  refine ⟨rfl, ?_, ?_, ?_, ?_⟩
  · intro w ty dm; rfl
  · intro w ty dm
    simp [accuracyA, accuracyANoDur]
    norm_num
  · intro ms; rfl
  · intro hv aw v s
    cases hv with
    | none => rfl
    | some m => simp [accuracyB, durPenalty]

theorem cleanA_type (wf : ItemObj → ℚ) (duration : Option ℚ) (i : AValid)
    (vid : Option String) (ds : String) :
    (cleanA wf duration i vid ds).type = i.type := rfl

theorem cleanA_accuracy (wf : ItemObj → ℚ) (duration : Option ℚ)
    (i : AValid) (vid : Option String) (ds : String) :
    (cleanA wf duration i vid ds).accuracy
      = accuracyA (wf i.base) duration i.type (jsDurationMs ds) := rfl

theorem cleanA_duration_ms (wf : ItemObj → ℚ) (duration : Option ℚ)
    (i : AValid) (vid : Option String) (ds : String) :
    (cleanA wf duration i vid ds).duration_ms = jsDurationMs ds := rfl

theorem cleanA_videoId (wf : ItemObj → ℚ) (duration : Option ℚ)
    (i : AValid) (vid : Option String) (ds : String) :
    (cleanA wf duration i vid ds).videoId = vid := rfl

/-- Claim C1: every candidate in the Backend A final set stems from a
valid item whose textual weight exceeds 65, and its accuracy — which is
strictly above 80 — equals the textual weight minus the duration
penalty, boosted toward 100 by 50% of the remaining gap for songs, 25%
for videos and 5% otherwise, where the penalty is
`|expected − actual| / expected × 100` when a truthy expected duration
was supplied and a fixed 50 otherwise. -/
theorem c1_backendA_accuracy_formula :
    ∀ (wf : ItemObj → ℚ) (duration : Option ℚ) (items : List ItemObj)
      (l : List CandA), searchA wf duration items = some l →
      ∀ c ∈ l, ∃ i ∈ validSectionsA items,
        wf i.base > 65 ∧ c.type = i.type ∧
        ∃ q, c.accuracy = some q ∧ 80 < q ∧
          ((jsTruthyNum duration = true ∧ ∃ d m, duration = some d
              ∧ c.duration_ms = some m
              ∧ q = (wf i.base - |d - m| / d * 100)
                  + (if i.type = "song" then (50 : ℚ)
                      else if i.type = "video" then 25 else 5) / 100
                    * (100 - (wf i.base - |d - m| / d * 100)))
            ∨ (jsTruthyNum duration = false
              ∧ q = (wf i.base - 50)
                  + (if i.type = "song" then (50 : ℚ)
                      else if i.type = "video" then 25 else 5) / 100
                    * (100 - (wf i.base - 50)))) := by
  intro wf duration items l h c hc
  rcases searchA_mem h c hc with ⟨i, hi, vid, ds, hvid, hds, hw, hacc, rfl⟩
  refine ⟨i, hi, hw, cleanA_type wf duration i vid ds, ?_⟩
  rw [cleanA_accuracy] at hacc ⊢
  rw [cleanA_duration_ms]
  cases duration with
  | none =>
    rw [show accuracyA (wf i.base) none i.type (jsDurationMs ds)
        = some (accuracyANoDur (wf i.base) i.type) from rfl] at hacc ⊢
    have hq : 80 < accuracyANoDur (wf i.base) i.type := by
      simpa [jsGtC] using hacc
    refine ⟨accuracyANoDur (wf i.base) i.type, rfl, hq, .inr ⟨rfl, ?_⟩⟩
    simp only [accuracyANoDur, boostA, typeBonus]
    norm_num
  | some d =>
    by_cases hz : d = 0
    · subst hz
      rw [show accuracyA (wf i.base) (some 0) i.type (jsDurationMs ds)
          = some (accuracyANoDur (wf i.base) i.type) from rfl] at hacc ⊢
      have hq : 80 < accuracyANoDur (wf i.base) i.type := by
        simpa [jsGtC] using hacc
      refine ⟨accuracyANoDur (wf i.base) i.type, rfl, hq,
        .inr ⟨by simp [jsTruthyNum], ?_⟩⟩
      simp only [accuracyANoDur, boostA, typeBonus]
      norm_num
    · cases hdm : jsDurationMs ds with
      | none =>
        rw [hdm] at hacc
        rw [show accuracyA (wf i.base) (some d) i.type none = none from by
          simp [accuracyA, hz]] at hacc
        simp [jsGtC] at hacc
      | some m =>
        rw [hdm] at hacc
        rw [show accuracyA (wf i.base) (some d) i.type (some m)
            = some (accuracyACore (wf i.base) d i.type m) from by
          simp [accuracyA, hz]] at hacc ⊢
        have hq : 80 < accuracyACore (wf i.base) d i.type m := by
          simpa [jsGtC] using hacc
        refine ⟨accuracyACore (wf i.base) d i.type m, rfl, hq,
          .inl ⟨by simp [jsTruthyNum, hz], d, m, rfl, rfl, ?_⟩⟩
        simp only [accuracyACore, boostA, typeBonus]

/-- Witness for C1 at a concrete search: one song item with full weight
and an exactly matching duration of 1:40 against an expected 100000 ms. -/
theorem c1_backendA_accuracy_formula_witness :
    (searchA (fun _ => 100) (some 100000)
        [⟨some "song", some "T", some (some "abc"), some (some "1:40"), [], none⟩]
      = some [⟨"T", "song", [], "1:40", some 100000, some "abc", some 100⟩])
    ∧ ∀ c ∈ [(⟨"T", "song", [], "1:40", some 100000, some "abc", some 100⟩ : CandA)],
        ∃ i ∈ validSectionsA
          [⟨some "song", some "T", some (some "abc"), some (some "1:40"), [], none⟩],
          (fun (_ : ItemObj) => (100 : ℚ)) i.base > 65 ∧ c.type = i.type ∧
          ∃ q, c.accuracy = some q ∧ 80 < q ∧
            ((jsTruthyNum (some 100000) = true ∧ ∃ d m, (some 100000 : Option ℚ) = some d
                ∧ c.duration_ms = some m
                ∧ q = ((fun (_ : ItemObj) => (100 : ℚ)) i.base - |d - m| / d * 100)
                    + (if i.type = "song" then (50 : ℚ)
                        else if i.type = "video" then 25 else 5) / 100
                      * (100 - ((fun (_ : ItemObj) => (100 : ℚ)) i.base - |d - m| / d * 100)))
              ∨ (jsTruthyNum (some 100000) = false
                ∧ q = ((fun (_ : ItemObj) => (100 : ℚ)) i.base - 50)
                    + (if i.type = "song" then (50 : ℚ)
                        else if i.type = "video" then 25 else 5) / 100
                      * (100 - ((fun (_ : ItemObj) => (100 : ℚ)) i.base - 50)))) :=
  by
  have hd : jsDurationMs "1:40" = some 100000 := by
    simp +decide [jsDurationMs, splitOnColon, splitColonGo, parseSegs,
      jsToNumSegment, charsTrim, parseNatChars, parseNatGo]
    norm_num
  have hs : searchA (fun _ => 100) (some 100000)
      [⟨some "song", some "T", some (some "abc"), some (some "1:40"), [], none⟩]
      = some [⟨"T", "song", [], "1:40", some 100000, some "abc", some 100⟩] := by
    simp +decide [searchA, validSectionsA, buildA, stepA, cleanA, accuracyA,
      accuracyACore, boostA, typeBonus, hd, jsKey, jsGtC, objectValues,
      isArrayIndexKey, parseNatChars, jsSortDesc, insertDesc,
      List.filterMap_cons, List.lookup]
  exact ⟨hs, c1_backendA_accuracy_formula (fun _ => 100) (some 100000)
    [⟨some "song", some "T", some (some "abc"), some (some "1:40"), [], none⟩]
    [⟨"T", "song", [], "1:40", some 100000, some "abc", some 100⟩] hs⟩

/-- Claim C8: accuracy is monotone in its inputs.  For Backend A, with
a positive expected duration and everything else fixed, decreasing the
absolute duration delta never decreases the computed accuracy.  For
Backend B, with the same batch maximum view count and everything else
fixed, increasing the view count never decreases the computed
accuracy. -/
theorem c8_accuracy_monotone :
    (∀ (w d : ℚ) (ty : String) (m1 m2 q1 q2 : ℚ), 0 < d →
        |d - m1| ≤ |d - m2| →
        accuracyA w (some d) ty (some m1) = some q1 →
        accuracyA w (some d) ty (some m2) = some q2 → q2 ≤ q1)
    ∧ (∀ (duration : Option ℚ) (M aw v1 v2 s q1 q2 : ℚ),
        (duration = none ∨ ∃ d, duration = some d ∧ 0 ≤ d) →
        0 < M → v1 ≤ v2 →
        accuracyB duration (some M) aw v1 s = some q1 →
        accuracyB duration (some M) aw v2 s = some q2 → q1 ≤ q2) := by
  constructor
  · intro w d ty m1 m2 q1 q2 hd habs h1 h2
    have hz : ¬ d = 0 := ne_of_gt hd
    rw [show accuracyA w (some d) ty (some m1)
        = some (accuracyACore w d ty m1) from by simp [accuracyA, hz]] at h1
    rw [show accuracyA w (some d) ty (some m2)
        = some (accuracyACore w d ty m2) from by simp [accuracyA, hz]] at h2
    have hq1 : q1 = accuracyACore w d ty m1 := by simpa using h1.symm
    have hq2 : q2 = accuracyACore w d ty m2 := by simpa using h2.symm
    subst hq1; subst hq2
    unfold accuracyACore
    apply boostA_mono
    have hdiv : |d - m1| / d ≤ |d - m2| / d := (div_le_div_iff_of_pos_right hd).mpr habs
    nlinarith
  · intro duration M aw v1 v2 s q1 q2 hleg hM hv h1 h2
    have hMz : ¬ M = 0 := ne_of_gt hM
    rw [show accuracyB duration (some M) aw v1 s
        = some (accuracyBCore (durPenalty duration (s * 1000)) (v1 / M) aw)
        from by simp [accuracyB, hMz]] at h1
    rw [show accuracyB duration (some M) aw v2 s
        = some (accuracyBCore (durPenalty duration (s * 1000)) (v2 / M) aw)
        from by simp [accuracyB, hMz]] at h2
    have hq1 : q1 = accuracyBCore (durPenalty duration (s * 1000)) (v1 / M) aw := by
      simpa using h1.symm
    have hq2 : q2 = accuracyBCore (durPenalty duration (s * 1000)) (v2 / M) aw := by
      simpa using h2.symm
    subst hq1; subst hq2
    exact accuracyBCore_mono_r (durPenalty_nonneg hleg)
      ((div_le_div_iff_of_pos_right hM).mpr hv)

/-- Witness for C8: concrete duration deltas 0 and 1000 ms for Backend
A, concrete view counts 0 and 10 under a batch maximum of 10 for
Backend B. -/
theorem c8_accuracy_monotone_witness :
    accuracyA 100 (some 1000) "song" (some 1000) = some 100
    ∧ accuracyA 100 (some 1000) "song" (some 2000) = some 50
    ∧ (50 : ℚ) ≤ 100
    ∧ accuracyB none (some 10) 0 0 7 = some 50
    ∧ accuracyB none (some 10) 0 10 7 = some 90
    ∧ (50 : ℚ) ≤ 90 := by
  have habs : |(1000 : ℚ) - 2000| = 1000 := by
    rw [show (1000 : ℚ) - 2000 = -1000 from by norm_num, abs_neg,
      abs_of_nonneg (by norm_num)]
  have e1 : accuracyA 100 (some 1000) "song" (some 1000) = some 100 := by
    simp [accuracyA, accuracyACore, boostA, typeBonus]
  have e2 : accuracyA 100 (some 1000) "song" (some 2000) = some 50 := by
    simp [accuracyA, accuracyACore, boostA, typeBonus, habs]
  have e3 : accuracyB none (some 10) 0 0 7 = some 50 := by
    simp [accuracyB, accuracyBCore, durPenalty]
    norm_num
  have e4 : accuracyB none (some 10) 0 10 7 = some 90 := by
    simp [accuracyB, accuracyBCore, durPenalty]
    norm_num
  refine ⟨e1, e2, ?_, e3, e4, ?_⟩
  · exact c8_accuracy_monotone.1 100 1000 "song" 1000 2000 100 50
      (by norm_num) (by rw [habs]; simp) e1 e2
  · exact c8_accuracy_monotone.2 none 10 0 0 10 7 50 90 (.inl rfl)
      (by norm_num) (by norm_num) e3 e4

/-- Claim C2: for Backend B, when every one of the 4 query-variant
tasks fails, `search` throws a `YouTubeSearchError` carrying the last
variant's failure reason (message and code); when at least one variant
succeeds, each failed variant is treated as an empty result, no error
is thrown, and the returned candidates are exactly (up to ranking
order) the first-seen entry per videoId key among the successful
variants' kept results. -/
theorem c2_variant_failure_policy :
    ∀ (duration : Option ℚ) (awf : RawVideo → ℚ)
      (o1 o2 o3 o4 : Except JErr BSource),
      ((∀ o ∈ [o1, o2, o3, o4], isRej o = true) →
        ∀ e : JErr, o4 = .error e →
          searchB duration awf [o1, o2, o3, o4] = some (.error (mkYTErr e)))
      ∧ ((∃ o ∈ [o1, o2, o3, o4], isRej o = false) →
        ∃ l, searchB duration awf [o1, o2, o3, o4] = some (.ok l)
          ∧ (l.map fun c => jsKey c.videoId).Perm
              (keptKeys (sourcesOf [o1, o2, o3, o4]))) := by
  intro duration awf o1 o2 o3 o4
  constructor
  · intro hall e he4
    subst he4
    have hb : ([o1, o2, o3, Except.error e] :
        List (Except JErr BSource)).all isRej = true := by
      rw [List.all_eq_true]; exact hall
    unfold searchB
    rw [if_pos hb]
    rfl
  · intro hex
    have hb : ([o1, o2, o3, o4].all isRej) = false := by
      rw [Bool.eq_false_iff]
      intro hc
      rcases hex with ⟨o, ho, hfalse⟩
      rw [List.all_eq_true] at hc
      rw [hc o ho] at hfalse
      simp at hfalse
    unfold searchB
    rw [if_neg (by simp [hb])]
    refine ⟨_, rfl, ?_⟩
    have hperm1 : (jsSortDesc CandB.accuracy (objectValues
        (buildB duration (hvOf [o1, o2, o3, o4]) awf
          (sourcesOf [o1, o2, o3, o4]) []))).Perm
        ((buildB duration (hvOf [o1, o2, o3, o4]) awf
          (sourcesOf [o1, o2, o3, o4]) []).map Prod.snd) :=
      (jsSortDesc_perm _ _).trans (objectValues_perm _)
    have hkeys : ∀ e2 ∈ buildB duration (hvOf [o1, o2, o3, o4]) awf
        (sourcesOf [o1, o2, o3, o4]) [],
        (fun c : CandB => jsKey c.videoId) e2.2 = e2.1 := by
      intro e2 he2
      rcases buildB_mem e2 he2 with h0 | ⟨s, _, v, _, vid, _, hee⟩
      · exact absurd h0 (by simp)
      · rw [hee]
        rfl
    have hm2 : (((buildB duration (hvOf [o1, o2, o3, o4]) awf
          (sourcesOf [o1, o2, o3, o4]) []).map Prod.snd).map
            fun c : CandB => jsKey c.videoId)
        = (buildB duration (hvOf [o1, o2, o3, o4]) awf
            (sourcesOf [o1, o2, o3, o4]) []).map Prod.fst := by
      rw [List.map_map]
      refine List.map_congr_left ?_
      intro a ha
      exact hkeys a ha
    have hmapped := hperm1.map fun c : CandB => jsKey c.videoId
    rw [hm2, buildB_keys] at hmapped
    simpa [keptKeys, dedupFirst_eq_go] using hmapped

/-- Witness for C2: an all-failed batch surfaces the fourth error, and
a batch whose fourth variant succeeded (with no kept entries) returns
an empty candidate list without error. -/
theorem c2_variant_failure_policy_witness :
    (searchB none (fun _ => 0)
        [.error ⟨"a", none⟩, .error ⟨"b", none⟩, .error ⟨"c", none⟩,
          .error ⟨"boom", some "ECONNRESET"⟩]
      = some (.error ⟨"boom", none, some "ECONNRESET"⟩))
    ∧ ∃ l, searchB none (fun _ => 0)
          [.error ⟨"a", none⟩, .error ⟨"b", none⟩, .error ⟨"c", none⟩,
            .ok ⟨[], 0, []⟩]
        = some (.ok l)
      ∧ (l.map fun c => jsKey c.videoId).Perm
          (keptKeys (sourcesOf
            [.error ⟨"a", none⟩, .error ⟨"b", none⟩, .error ⟨"c", none⟩,
              .ok ⟨[], 0, []⟩])) := by
  constructor
  · have h := (c2_variant_failure_policy none (fun _ => 0)
      (.error ⟨"a", none⟩) (.error ⟨"b", none⟩) (.error ⟨"c", none⟩)
      (.error ⟨"boom", some "ECONNRESET"⟩)).1
      (by intro o ho; fin_cases ho <;> rfl) ⟨"boom", some "ECONNRESET"⟩ rfl
    simpa [mkYTErr] using h
  · exact (c2_variant_failure_policy none (fun _ => 0)
      (.error ⟨"a", none⟩) (.error ⟨"b", none⟩) (.error ⟨"c", none⟩)
      (.ok ⟨[], 0, []⟩)).2 ⟨.ok ⟨[], 0, []⟩, by simp, rfl⟩

theorem map_snd_filter_key {β : Type} (keyf : β → String)
    (m : List (String × β)) (hkey : ∀ e ∈ m, e.1 = keyf e.2) (k : String) :
    (m.map Prod.snd).filter (fun c => keyf c == k)
      = (m.filter (fun e => e.1 == k)).map Prod.snd := by
  induction m with
  | nil => rfl
  | cons e rest ih =>
    have hk := hkey e (List.mem_cons_self e rest)
    have ih2 := ih fun e2 he2 => hkey e2 (List.mem_cons_of_mem e he2)
    rw [List.map_cons, List.filter_cons, List.filter_cons]
    by_cases hek : (keyf e.2 == k) = true
    · rw [if_pos hek, if_pos (by rw [hk]; exact hek), List.map_cons, ih2]
    · have hek' : (keyf e.2 == k) = false := by
        rw [Bool.eq_false_iff]; exact hek
      rw [if_neg (by simp [hek']), if_neg (by simp [hk, hek']), ih2]

theorem perm_eq_short {β : Type} {l1 l2 : List β} (h : l1.Perm l2)
    (hl : l2.length ≤ 1) : l1 = l2 := by
  cases l2 with
  | nil => exact h.eq_nil
  | cons a t =>
    cases t with
    | nil => exact List.perm_singleton.mp h
    | cons b t2 => simp at hl

theorem tailA_len (wf : ItemObj → ℚ) (duration : Option ℚ) (k : String)
    (items : List AValid) : (tailA wf duration k items).length ≤ 1 := by
  unfold tailA
  split
  · split <;> simp
  · simp

theorem tailB_len (duration : Option ℚ) (hv : Option ℚ)
    (awf : RawVideo → ℚ) (k : String) (sources : List (Option BSource)) :
    (tailB duration hv awf k sources).length ≤ 1 := by
  unfold tailB
  split
  · split <;> simp
  · simp

/-- Claim C3 (amended): in both backends the dedup map holds, per
videoId key, the clean item of the first raw candidate that actually
passes the insertion filters (for Backend A: weight above 65, videoId
property present, parsable access to the duration value, accuracy
above 80; for Backend B: videoId property present); candidates that
fail the filters do not reserve their key, so the surviving entry need
not be the first-encountered raw candidate sharing the identifier. -/
theorem c3_amended_first_inserted_wins :
    (∀ (wf : ItemObj → ℚ) (duration : Option ℚ) (items : List ItemObj)
        (l : List CandA) (k : String), searchA wf duration items = some l →
        l.filter (fun c => jsKey c.videoId == k)
          = (tailA wf duration k (validSectionsA items)).map Prod.snd)
    ∧ (∀ (duration : Option ℚ) (awf : RawVideo → ℚ)
        (outcomes : List (Except JErr BSource)) (l : List CandB) (k : String),
        searchB duration awf outcomes = some (.ok l) →
        l.filter (fun c => jsKey c.videoId == k)
          = (tailB duration (hvOf outcomes) awf k
              (sourcesOf outcomes)).map Prod.snd) := by
  constructor
  · intro wf duration items l k h
    rcases searchA_inv h with ⟨m, hm, hl⟩
    have hkeyinv : ∀ e ∈ m, e.1 = (fun c : CandA => jsKey c.videoId) e.2 := by
      intro e he
      rcases buildA_mem hm e he with h0 | ⟨i, _, vid, ds, _, _, _, _, hee⟩
      · simp at h0
      · rw [hee]
        rfl
    have hperm : (l.filter fun c => jsKey c.videoId == k).Perm
        ((m.map Prod.snd).filter fun c => jsKey c.videoId == k) := by
      have h1 : l.Perm (m.map Prod.snd) := by
        rw [hl]
        exact (jsSortDesc_perm _ _).trans (objectValues_perm _)
      exact h1.filter _
    rw [map_snd_filter_key (fun c : CandA => jsKey c.videoId) m hkeyinv k]
      at hperm
    have hf := buildA_filter k hm
    simp only [List.filter_nil, List.lookup_nil, Option.isSome_none,
      Bool.false_eq_true, if_false, List.nil_append] at hf
    rw [hf] at hperm
    refine perm_eq_short hperm ?_
    rw [List.length_map]
    exact tailA_len wf duration k (validSectionsA items)
  · intro duration awf outcomes l k h
    rcases searchB_ok_inv h with ⟨hrej, hl⟩
    have hkeyinv : ∀ e ∈ buildB duration (hvOf outcomes) awf
        (sourcesOf outcomes) [],
        e.1 = (fun c : CandB => jsKey c.videoId) e.2 := by
      intro e he
      rcases buildB_mem e he with h0 | ⟨s, _, v, _, vid, _, hee⟩
      · simp at h0
      · rw [hee]
        rfl
    have hperm : (l.filter fun c => jsKey c.videoId == k).Perm
        (((buildB duration (hvOf outcomes) awf (sourcesOf outcomes) []).map
          Prod.snd).filter fun c => jsKey c.videoId == k) := by
      have h1 : l.Perm ((buildB duration (hvOf outcomes) awf
          (sourcesOf outcomes) []).map Prod.snd) := by
        rw [hl]
        exact (jsSortDesc_perm _ _).trans (objectValues_perm _)
      exact h1.filter _
    rw [map_snd_filter_key (fun c : CandB => jsKey c.videoId) _ hkeyinv k]
      at hperm
    have hf := @buildB_filter duration (hvOf outcomes) awf k
      (sourcesOf outcomes) ([] : List (String × CandB))
    simp only [List.filter_nil, List.lookup_nil, Option.isSome_none,
      Bool.false_eq_true, if_false, List.nil_append] at hf
    rw [hf] at hperm
    refine perm_eq_short hperm ?_
    rw [List.length_map]
    exact tailB_len duration (hvOf outcomes) awf k (sourcesOf outcomes)

/-- Counterexample to C3 as stated: two Backend A raw candidates share
the videoId `dup`; the first-encountered one (title `T1`, weight 70,
but duration 2:20 against an expected 100 s, hence accuracy 65 ≤ 80) is
rejected by the accuracy threshold and does not reserve the key, so the
final list's only entry for `dup` is the *second* candidate, not the
first-encountered one. -/
theorem c3_counterexample_first_seen_loses :
    searchA (fun i => if i.title? = some "T1" then 70 else 100)
        (some 100000)
        [⟨some "song", some "T1", some (some "dup"), some (some "2:20"), [], none⟩,
          ⟨some "song", some "T2", some (some "dup"), some (some "1:40"), [], none⟩]
      = some [⟨"T2", "song", [], "1:40", some 100000, some "dup", some 100⟩] := by
  have hd1 : jsDurationMs "2:20" = some 140000 := by
    simp +decide [jsDurationMs, splitOnColon, splitColonGo, parseSegs,
      jsToNumSegment, charsTrim, parseNatChars, parseNatGo]
    norm_num
  have hd2 : jsDurationMs "1:40" = some 100000 := by
    simp +decide [jsDurationMs, splitOnColon, splitColonGo, parseSegs,
      jsToNumSegment, charsTrim, parseNatChars, parseNatGo]
    norm_num
  have habs : |(100000 : ℚ) - 140000| = 40000 := by
    rw [show (100000 : ℚ) - 140000 = -40000 from by norm_num, abs_neg,
      abs_of_nonneg (by norm_num)]
  have hidx : isArrayIndexKey "dup" = false := by decide
  simp +decide [searchA, validSectionsA, buildA, stepA, cleanA, accuracyA,
    accuracyACore, boostA, typeBonus, hd1, hd2, habs, jsKey, jsGtC,
    objectValues, hidx, keyNat, insertIdxAsc, jsSortDesc, insertDesc,
    jsGtOpt, List.filterMap_cons, List.lookup, List.filter_cons,
    List.filter_nil]
  norm_num
  simp [hidx, List.filter_singleton, insertIdxAsc, insertDesc, jsGtOpt]

/-- Witness for the amended C3 at concrete runs of both backends. -/
theorem c3_amended_first_inserted_wins_witness :
    (searchA (fun _ => 100) (some 100000)
        [⟨some "song", some "W", some (some "w1"), some (some "1:40"), [], none⟩]
      = some [⟨"W", "song", [], "1:40", some 100000, some "w1", some 100⟩])
    ∧ ([(⟨"W", "song", [], "1:40", some 100000, some "w1", some 100⟩ : CandA)].filter
          (fun c => jsKey c.videoId == "w1")
        = (tailA (fun _ => 100) (some 100000) "w1" (validSectionsA
            [⟨some "song", some "W", some (some "w1"), some (some "1:40"), [], none⟩])).map
              Prod.snd)
    ∧ (searchB none (fun _ => 0)
          [.error ⟨"a", none⟩, .error ⟨"b", none⟩, .error ⟨"c", none⟩,
            .ok ⟨[], 0, []⟩]
        = some (.ok []))
    ∧ (([] : List CandB).filter (fun c => jsKey c.videoId == "z")
        = (tailB none (hvOf [.error ⟨"a", none⟩, .error ⟨"b", none⟩,
            .error ⟨"c", none⟩, .ok ⟨[], 0, []⟩]) (fun _ => 0) "z"
            (sourcesOf [.error ⟨"a", none⟩, .error ⟨"b", none⟩,
              .error ⟨"c", none⟩, .ok ⟨[], 0, []⟩])).map Prod.snd) := by
  have hd : jsDurationMs "1:40" = some 100000 := by
    simp +decide [jsDurationMs, splitOnColon, splitColonGo, parseSegs,
      jsToNumSegment, charsTrim, parseNatChars, parseNatGo]
    norm_num
  have hs : searchA (fun _ => 100) (some 100000)
      [⟨some "song", some "W", some (some "w1"), some (some "1:40"), [], none⟩]
      = some [⟨"W", "song", [], "1:40", some 100000, some "w1", some 100⟩] := by
    simp +decide [searchA, validSectionsA, buildA, stepA, cleanA, accuracyA,
      accuracyACore, boostA, typeBonus, hd, jsKey, jsGtC, objectValues,
      isArrayIndexKey, parseNatChars, jsSortDesc, insertDesc,
      List.filterMap_cons, List.lookup]
  have hsB : searchB none (fun _ => 0)
      [.error ⟨"a", none⟩, .error ⟨"b", none⟩, .error ⟨"c", none⟩,
        .ok ⟨[], 0, []⟩] = some (.ok []) := rfl
  exact ⟨hs, c3_amended_first_inserted_wins.1 (fun _ => 100) (some 100000)
      [⟨some "song", some "W", some (some "w1"), some (some "1:40"), [], none⟩]
      [⟨"W", "song", [], "1:40", some 100000, some "w1", some 100⟩] "w1" hs,
    hsB, c3_amended_first_inserted_wins.2 none (fun _ => 0)
      [.error ⟨"a", none⟩, .error ⟨"b", none⟩, .error ⟨"c", none⟩,
        .ok ⟨[], 0, []⟩] [] "z" hsB⟩

/-- Counterexample to C6 as stated: two equal-accuracy Backend A
candidates with the integer-like videoIds `5` then `3` (in that
encounter order) come back in the order `3`, `5`: JS objects enumerate
array-index-like keys first in ascending numeric order, so equal
accuracies do not preserve raw encounter order for such identifiers. -/
theorem c6_counterexample_integer_keys :
    searchA (fun _ => 100) (some 100000)
        [⟨some "song", some "A", some (some "5"), some (some "1:40"), [], none⟩,
          ⟨some "song", some "B", some (some "3"), some (some "1:40"), [], none⟩]
      = some [⟨"B", "song", [], "1:40", some 100000, some "3", some 100⟩,
          ⟨"A", "song", [], "1:40", some 100000, some "5", some 100⟩] := by
  have hd : jsDurationMs "1:40" = some 100000 := by
    simp +decide [jsDurationMs, splitOnColon, splitColonGo, parseSegs,
      jsToNumSegment, charsTrim, parseNatChars, parseNatGo]
    norm_num
  simp +decide [searchA, validSectionsA, buildA, stepA, cleanA, accuracyA,
    accuracyACore, boostA, typeBonus, hd, jsKey, jsGtC, objectValues,
    isArrayIndexKey, parseNatChars, parseNatGo, keyNat, insertIdxAsc,
    jsSortDesc, insertDesc, jsGtOpt, List.filterMap_cons, List.lookup,
    List.filter_cons, List.filter_nil]

/-- Claim C6 (amended): each backend's final list is the stable
descending-by-accuracy sort of the dedup map's enumeration order: no
later candidate strictly beats an earlier one, candidates with equal
numeric accuracy keep their enumeration order (expressed by filtering
on each accuracy value), and the list is a permutation of the map's
values.  Enumeration order is insertion (encounter) order except that
integer-like videoId keys are enumerated first in ascending numeric
order, per JS object key semantics. -/
theorem c6_amended_sorted_stable :
    (∀ (wf : ItemObj → ℚ) (duration : Option ℚ) (items : List ItemObj)
        (l : List CandA) (m : List (String × CandA)),
        searchA wf duration items = some l →
        buildA wf duration (validSectionsA items) [] = some m →
        l.Pairwise (fun a b => jsGtOpt b.accuracy a.accuracy = false)
          ∧ (∀ q : ℚ, l.filter (fun c => c.accuracy == some q)
              = (objectValues m).filter (fun c => c.accuracy == some q))
          ∧ l.Perm (objectValues m))
    ∧ (∀ (duration : Option ℚ) (awf : RawVideo → ℚ)
        (outcomes : List (Except JErr BSource)) (l : List CandB),
        searchB duration awf outcomes = some (.ok l) →
        l.Pairwise (fun a b => jsGtOpt b.accuracy a.accuracy = false)
          ∧ (∀ q : ℚ, l.filter (fun c => c.accuracy == some q)
              = (objectValues (buildB duration (hvOf outcomes) awf
                  (sourcesOf outcomes) [])).filter
                    (fun c => c.accuracy == some q))
          ∧ l.Perm (objectValues (buildB duration (hvOf outcomes) awf
              (sourcesOf outcomes) []))) := by
  constructor
  · intro wf duration items l m h hm
    rcases searchA_inv h with ⟨m2, hm2, hl⟩
    rw [hm] at hm2
    have hmm : m = m2 := by simpa using hm2
    subst hmm
    subst hl
    exact ⟨jsSortDesc_pairwise CandA.accuracy (objectValues m),
      fun q => jsSortDesc_filter_acc CandA.accuracy (objectValues m) q,
      jsSortDesc_perm CandA.accuracy (objectValues m)⟩
  · intro duration awf outcomes l h
    rcases searchB_ok_inv h with ⟨hrej, hl⟩
    subst hl
    exact ⟨jsSortDesc_pairwise CandB.accuracy _,
      fun q => jsSortDesc_filter_acc CandB.accuracy _ q,
      jsSortDesc_perm CandB.accuracy _⟩

/-- Witness for the amended C6 at concrete runs of both backends. -/
theorem c6_amended_sorted_stable_witness :
    (searchA (fun _ => 100) (some 100000)
        [⟨some "song", some "W", some (some "w2"), some (some "1:40"), [], none⟩]
      = some [⟨"W", "song", [], "1:40", some 100000, some "w2", some 100⟩])
    ∧ (buildA (fun _ => 100) (some 100000) (validSectionsA
        [⟨some "song", some "W", some (some "w2"), some (some "1:40"), [], none⟩]) []
      = some [("w2", ⟨"W", "song", [], "1:40", some 100000, some "w2", some 100⟩)])
    ∧ ([(⟨"W", "song", [], "1:40", some 100000, some "w2", some 100⟩ : CandA)].Pairwise
          (fun a b => jsGtOpt b.accuracy a.accuracy = false)
        ∧ (∀ q : ℚ,
            [(⟨"W", "song", [], "1:40", some 100000, some "w2", some 100⟩ : CandA)].filter
                (fun c => c.accuracy == some q)
              = (objectValues
                  [("w2", (⟨"W", "song", [], "1:40", some 100000, some "w2", some 100⟩ : CandA))]).filter
                    (fun c => c.accuracy == some q))
        ∧ [(⟨"W", "song", [], "1:40", some 100000, some "w2", some 100⟩ : CandA)].Perm
            (objectValues
              [("w2", (⟨"W", "song", [], "1:40", some 100000, some "w2", some 100⟩ : CandA))]))
    ∧ ((searchB none (fun _ => 0)
          [.error ⟨"a", none⟩, .error ⟨"b", none⟩, .error ⟨"c", none⟩,
            .ok ⟨[], 0, []⟩] = some (.ok ([] : List CandB)))
        ∧ (([] : List CandB).Pairwise
            (fun a b => jsGtOpt b.accuracy a.accuracy = false))) := by
  have hd : jsDurationMs "1:40" = some 100000 := by
    simp +decide [jsDurationMs, splitOnColon, splitColonGo, parseSegs,
      jsToNumSegment, charsTrim, parseNatChars, parseNatGo]
    norm_num
  have hm : buildA (fun _ => 100) (some 100000) (validSectionsA
      [⟨some "song", some "W", some (some "w2"), some (some "1:40"), [], none⟩]) []
      = some [("w2", ⟨"W", "song", [], "1:40", some 100000, some "w2", some 100⟩)] := by
    simp +decide [validSectionsA, buildA, stepA, cleanA, accuracyA,
      accuracyACore, boostA, typeBonus, hd, jsKey, jsGtC,
      List.filterMap_cons, List.lookup]
  have hs : searchA (fun _ => 100) (some 100000)
      [⟨some "song", some "W", some (some "w2"), some (some "1:40"), [], none⟩]
      = some [⟨"W", "song", [], "1:40", some 100000, some "w2", some 100⟩] := by
    simp +decide [searchA, validSectionsA, buildA, stepA, cleanA, accuracyA,
      accuracyACore, boostA, typeBonus, hd, jsKey, jsGtC, objectValues,
      isArrayIndexKey, parseNatChars, jsSortDesc, insertDesc,
      List.filterMap_cons, List.lookup]
  have hsB : searchB none (fun _ => 0)
      [.error ⟨"a", none⟩, .error ⟨"b", none⟩, .error ⟨"c", none⟩,
        .ok ⟨[], 0, []⟩] = some (.ok ([] : List CandB)) := rfl
  refine ⟨hs, hm, ?_, hsB, ?_⟩
  · exact c6_amended_sorted_stable.1 (fun _ => 100) (some 100000)
      [⟨some "song", some "W", some (some "w2"), some (some "1:40"), [], none⟩]
      [⟨"W", "song", [], "1:40", some 100000, some "w2", some 100⟩]
      [("w2", ⟨"W", "song", [], "1:40", some 100000, some "w2", some 100⟩)] hs hm
  · exact (c6_amended_sorted_stable.2 none (fun _ => 0)
      [.error ⟨"a", none⟩, .error ⟨"b", none⟩, .error ⟨"c", none⟩,
        .ok ⟨[], 0, []⟩] [] hsB).1

theorem jsGtC_some {a : Option ℚ} {b : ℚ} (h : jsGtC a b = true) :
    ∃ q, a = some q ∧ b < q := by
  cases a with
  | none => simp [jsGtC] at h
  | some q => exact ⟨q, rfl, by simpa [jsGtC] using h⟩

/-- Counterexample to C5 as stated: Backend B applies no accuracy
threshold, so a kept candidate whose actual duration (10 minutes) is
far from the expected one (1 second, expected 1000 ms) and whose view
count is zero receives the accuracy −800, far below the claimed 0–100
range, and still appears in the final list. -/
theorem c5_counterexample_negative_accuracy :
    searchB (some 1000) (fun _ => 0)
        [.ok ⟨["Official Audio"], 100,
            [⟨some "x", "X", "video", "AX", "10:00", 10, some 0⟩,
              ⟨some "y", "Y", "video", "AY", "0:01", 1, some 100⟩]⟩,
          .ok ⟨["Audio"], 0, []⟩, .ok ⟨["Lyrics"], 0, []⟩, .ok ⟨[], 0, []⟩]
      = some (.ok
          [⟨"Y", "video", "AY", "0:01", 1000, some "y", ["Official Audio"], some 100⟩,
            ⟨"X", "video", "AX", "10:00", 10000, some "x", ["Official Audio"],
              some (-800)⟩])
      ∧ (-800 : ℚ) < 0 := by
  refine ⟨?_, by norm_num⟩
  have hvv : hvOf [.ok ⟨["Official Audio"], 100,
        [⟨some "x", "X", "video", "AX", "10:00", 10, some 0⟩,
          ⟨some "y", "Y", "video", "AY", "0:01", 1, some 100⟩]⟩,
      .ok ⟨["Audio"], 0, []⟩, .ok ⟨["Lyrics"], 0, []⟩, .ok ⟨[], 0, []⟩]
      = some 100 := by
    simp +decide [hvOf, sourcesOf, jsMathMax]
  have habs : |(1000 : ℚ) - 10 * 1000| = 9000 := by
    rw [show (1000 : ℚ) - 10 * 1000 = -9000 from by norm_num, abs_neg,
      abs_of_nonneg (by norm_num)]
  have habs2 : |(1000 : ℚ) - 1 * 1000| = 0 := by norm_num
  simp +decide [searchB, isRej, hvv, sourcesOf, buildB, insertB, cleanB,
    accuracyB, accuracyBCore, durPenalty, viewsOrZero, habs, habs2, jsKey,
    objectValues, isArrayIndexKey, parseNatChars, parseNatGo, jsSortDesc,
    insertDesc, jsGtOpt, List.filter_cons, List.filter_nil, List.lookup]
  norm_num

/-- Claim C5 (amended): every candidate's accuracy is at most 100 (when
numeric), and Backend A's final candidates lie strictly above 80, hence
inside (80, 100]; Backend B candidates can score below 0 since no lower
threshold is applied.  The hypotheses record the interface facts: the
external textual weight is a 0–100 percentage, the expected duration is
non-negative when supplied, and each variant aggregate carries
non-negative views bounded by its own highest view count, as
`runVariant` produces them. -/
theorem c5_amended_accuracy_range :
    (∀ (wf : ItemObj → ℚ) (duration : Option ℚ) (items : List ItemObj)
        (l : List CandA),
        (∀ i : ItemObj, wf i ≤ 100) →
        (duration = none ∨ ∃ d, duration = some d ∧ 0 ≤ d) →
        searchA wf duration items = some l →
        ∀ c ∈ l, ∃ q, c.accuracy = some q ∧ 80 < q ∧ q ≤ 100)
    ∧ (∀ (duration : Option ℚ) (awf : RawVideo → ℚ)
        (outcomes : List (Except JErr BSource)) (l : List CandB),
        (duration = none ∨ ∃ d, duration = some d ∧ 0 ≤ d) →
        (∀ s : BSource, some s ∈ sourcesOf outcomes →
          0 ≤ s.highestViews ∧ ∀ v ∈ s.results, ∃ n, v.views = some n
            ∧ 0 ≤ n ∧ n ≤ s.highestViews) →
        searchB duration awf outcomes = some (.ok l) →
        ∀ c ∈ l, ∀ q, c.accuracy = some q → q ≤ 100) := by
  constructor
  · intro wf duration items l hw hd h c hc
    rcases searchA_mem h c hc with ⟨i, _, vid, ds, _, _, _, hacc, rfl⟩
    rw [cleanA_accuracy] at hacc ⊢
    rcases jsGtC_some hacc with ⟨q, hq, hq80⟩
    refine ⟨q, hq, hq80, ?_⟩
    rcases hd with rfl | ⟨d, rfl, hd0⟩
    · rw [show accuracyA (wf i.base) none i.type (jsDurationMs ds)
          = some (accuracyANoDur (wf i.base) i.type) from rfl] at hq
      have hq2 : q = accuracyANoDur (wf i.base) i.type := by simpa using hq.symm
      subst hq2
      unfold accuracyANoDur
      exact boostA_le_100 (by have := hw i.base; linarith)
    · by_cases hz : d = 0
      · subst hz
        rw [show accuracyA (wf i.base) (some 0) i.type (jsDurationMs ds)
            = some (accuracyANoDur (wf i.base) i.type) from rfl] at hq
        have hq2 : q = accuracyANoDur (wf i.base) i.type := by simpa using hq.symm
        subst hq2
        unfold accuracyANoDur
        exact boostA_le_100 (by have := hw i.base; linarith)
      · cases hdm : jsDurationMs ds with
        | none =>
          rw [hdm] at hq
          rw [show accuracyA (wf i.base) (some d) i.type none = none from by
            simp [accuracyA, hz]] at hq
          simp at hq
        | some m =>
          rw [hdm] at hq
          rw [show accuracyA (wf i.base) (some d) i.type (some m)
              = some (accuracyACore (wf i.base) d i.type m) from by
            simp [accuracyA, hz]] at hq
          have hq2 : q = accuracyACore (wf i.base) d i.type m := by
            simpa using hq.symm
          subst hq2
          unfold accuracyACore
          apply boostA_le_100
          have hpen : 0 ≤ |d - m| / d * 100 := by
            have : 0 ≤ |d - m| / d := div_nonneg (abs_nonneg _) hd0
            linarith
          have := hw i.base
          linarith
  · intro duration awf outcomes l hd hsrc h c hc q hq
    rcases searchB_mem h c hc with ⟨s, hs, v, hv, vid, _, rfl⟩
    rw [show (cleanB duration (hvOf outcomes) awf s.xFilters v vid).accuracy
        = accuracyB duration (hvOf outcomes) (awf v) (viewsOrZero v)
            v.durationSeconds from rfl] at hq
    cases hvv : hvOf outcomes with
    | none => rw [hvv] at hq; simp [accuracyB] at hq
    | some M =>
      rw [hvv] at hq
      by_cases hM0 : M = 0
      · rw [show accuracyB duration (some M) (awf v) (viewsOrZero v)
            v.durationSeconds = none from by simp [accuracyB, hM0]] at hq
        simp at hq
      · rw [show accuracyB duration (some M) (awf v) (viewsOrZero v)
              v.durationSeconds
            = some (accuracyBCore (durPenalty duration (v.durationSeconds * 1000))
                (viewsOrZero v / M) (awf v)) from by simp [accuracyB, hM0]] at hq
        have hq2 : q = accuracyBCore (durPenalty duration (v.durationSeconds * 1000))
            (viewsOrZero v / M) (awf v) := by simpa using hq.symm
        subst hq2
        have hMpos : 0 < M := by
          have hnn : 0 ≤ M := by
            apply jsMathMax_nonneg hvv
            intro x hx
            rcases List.mem_map.mp hx with ⟨o, ho, heq⟩
            cases o with
            | none => simp at heq
            | some s2 =>
              have hx2 : x = s2.highestViews := by simpa using heq.symm
              subst hx2
              exact (hsrc s2 ho).1
          exact lt_of_le_of_ne hnn (fun hc2 => hM0 hc2.symm)
        rcases (hsrc s hs).2 v hv with ⟨n, hvn, hn0, hnle⟩
        have hvz : viewsOrZero v = n := by simp [viewsOrZero, hvn]
        have hnM : n ≤ M := le_trans hnle (hvOf_ge hvv hs)
        apply accuracyBCore_le_100 (durPenalty_nonneg hd)
        rw [hvz]
        exact (div_le_one hMpos).mpr hnM

/-- Witness for the amended C5 at concrete runs of both backends. -/
theorem c5_amended_accuracy_range_witness :
    (searchA (fun _ => 100) (some 100000)
        [⟨some "song", some "W", some (some "w3"), some (some "1:40"), [], none⟩]
      = some [⟨"W", "song", [], "1:40", some 100000, some "w3", some 100⟩])
    ∧ (∀ c ∈ [(⟨"W", "song", [], "1:40", some 100000, some "w3", some 100⟩ : CandA)],
        ∃ q, c.accuracy = some q ∧ 80 < q ∧ q ≤ 100)
    ∧ (searchB none (fun _ => 0)
        [.error ⟨"a", none⟩, .error ⟨"b", none⟩, .error ⟨"c", none⟩,
          .ok ⟨[], 0, []⟩] = some (.ok ([] : List CandB)))
    ∧ (∀ c ∈ ([] : List CandB), ∀ q, c.accuracy = some q → q ≤ 100) := by
  have hd : jsDurationMs "1:40" = some 100000 := by
    simp +decide [jsDurationMs, splitOnColon, splitColonGo, parseSegs,
      jsToNumSegment, charsTrim, parseNatChars, parseNatGo]
    norm_num
  have hs : searchA (fun _ => 100) (some 100000)
      [⟨some "song", some "W", some (some "w3"), some (some "1:40"), [], none⟩]
      = some [⟨"W", "song", [], "1:40", some 100000, some "w3", some 100⟩] := by
    simp +decide [searchA, validSectionsA, buildA, stepA, cleanA, accuracyA,
      accuracyACore, boostA, typeBonus, hd, jsKey, jsGtC, objectValues,
      isArrayIndexKey, parseNatChars, jsSortDesc, insertDesc,
      List.filterMap_cons, List.lookup]
  have hsB : searchB none (fun _ => 0)
      [.error ⟨"a", none⟩, .error ⟨"b", none⟩, .error ⟨"c", none⟩,
        .ok ⟨[], 0, []⟩] = some (.ok ([] : List CandB)) := rfl
  refine ⟨hs, ?_, hsB, ?_⟩
  · exact c5_amended_accuracy_range.1 (fun _ => 100) (some 100000)
      [⟨some "song", some "W", some (some "w3"), some (some "1:40"), [], none⟩]
      [⟨"W", "song", [], "1:40", some 100000, some "w3", some 100⟩]
      (fun _ => by norm_num) (.inr ⟨100000, rfl, by norm_num⟩) hs
  · exact c5_amended_accuracy_range.2 none (fun _ => 0)
      [.error ⟨"a", none⟩, .error ⟨"b", none⟩, .error ⟨"c", none⟩,
        .ok ⟨[], 0, []⟩] [] (.inl rfl)
      (by
        intro s hsm
        have : s = ⟨[], 0, []⟩ := by
          rcases List.mem_map.mp hsm with ⟨o, ho, heq⟩
          fin_cases ho <;> simp_all [sourcesOf]
        subst this
        exact ⟨le_refl 0, by intro v hv; simp at hv⟩) hsB

/-- Helper for C9: whenever the item mapper assigns the `videoId`
property at all (even with the undefined value), the resolved type tag
of the raw item was `song` or `video` — only those two branches of the
mapper mention the property (youtube.js lines 236, 243). -/
theorem classify_videoId_type {flag : Bool} {c : Content} {obj : ItemObj}
    (h : classify flag c = some obj) (hvs : obj.videoId?.isSome = true) :
    typeTagOf flag c = some "song" ∨ typeTagOf flag c = some "video" := by
  unfold classify at h
  split at h
  · rename_i ty runs1 hty hcol
    split at h
    · split at h
      · simp at h
      · split at h
        · rename_i hsong
          rw [hty, hsong]
          exact .inl rfl
        · split at h
          · rename_i hvideo
            rw [hty, hvideo]
            exact .inr rfl
          · exfalso
            simp only [] at h
            split at h
            · simp at h
            · split at h
              · cases h
                simp [emptyItem] at hvs
              · split at h
                · split at h
                  · cases h
                    simp at hvs
                  · simp at h
                · split at h
                  · cases h
                    simp at hvs
                  · simp at h
    · split at h
      · split at h
        · cases h
          simp [emptyItem] at hvs
        · simp only [] at h
          split at h
          · cases h
            simp at hvs
          · simp at h
      · cases h
        simp at hvs
  · simp at h

/-- Counterexample to C9 as stated: a Songs-section item whose
play-button videoId extraction returned the absence marker still has
the `videoId` property (with the undefined value), so it passes the
`'videoId' in item` dedup guard and reaches the final list as a
candidate that does NOT carry a defined videoId — its key in the dedup
map is the string `undefined`. -/
theorem c9_counterexample_undefined_videoId :
    ∃ c : CandA, searchAFromContents (fun _ => 100) (some 180000)
        [(true, ⟨some [⟨"Title", false, none⟩],
                 some [⟨"3:00", false, none⟩], none, none⟩)] = some [c]
      ∧ c.videoId = none ∧ c.type = "song" := by
  refine ⟨⟨"Title", "song", [], "3:00", some 180000, none, some 100⟩, ?_, rfl, rfl⟩
  have hd : jsDurationMs "3:00" = some 180000 := by
    simp +decide [jsDurationMs, splitOnColon, splitColonGo, parseSegs,
      jsToNumSegment, charsTrim, parseNatChars, parseNatGo]
    norm_num
  simp +decide [searchAFromContents, classifyAll, classify, typeTagOf,
    runsText0, navRefs, resolveNav, resolveNavGo, searchA, validSectionsA,
    buildA, stepA, cleanA, accuracyA, accuracyACore, boostA, typeBonus, hd,
    jsKey, jsGtC, objectValues, isArrayIndexKey, parseNatChars, parseNatGo,
    jsSortDesc, insertDesc, List.filterMap_cons, List.lookup]

/-- Claim C9 (amended): every candidate in the `YouTubeMusic.search`
final list has type `song` or `video` and stems from a raw item whose
resolved type tag was `song` or `video` — items tagged album, artist,
playlist or unrecognized never appear, since only the song/video mapper
branches assign the `videoId` property that the dedup guard requires.
The candidate's videoId is the value of that property, but it need not
be defined: the property may hold the undefined value. -/
theorem c9_amended_song_video_videoId
    (wf : ItemObj → ℚ) (duration : Option ℚ)
    (contents : List (Bool × Content)) (l : List CandA)
    (h : searchAFromContents wf duration contents = some l) :
    ∀ c ∈ l, (c.type = "song" ∨ c.type = "video")
      ∧ ∃ p ∈ contents, ∃ obj, classify p.1 p.2 = some obj
          ∧ obj.videoId? = some c.videoId
          ∧ (typeTagOf p.1 p.2 = some "song"
              ∨ typeTagOf p.1 p.2 = some "video") := by
  unfold searchAFromContents at h
  cases hca : classifyAll contents with
  | none => rw [hca] at h; simp at h
  | some objs =>
    rw [hca] at h
    have h2 : searchA wf duration objs = some l := h
    intro c hc
    rcases searchA_mem h2 c hc with ⟨i, hi, vid, ds, hvid, hds, hw, hacc, hceq⟩
    rcases validSectionsA_mem i hi with ⟨hmem, hty, hsv, htitle⟩
    rcases classifyAll_mem hca i.base hmem with ⟨p, hp, hcl⟩
    have hvs : i.base.videoId?.isSome = true := by rw [hvid]; rfl
    have htag := classify_videoId_type hcl hvs
    refine ⟨?_, p, hp, i.base, hcl, ?_, htag⟩
    · have hct : c.type = i.type := by rw [hceq]; rfl
      rw [hct]
      exact hsv
    · have hcv : c.videoId = vid := by rw [hceq]; rfl
      rw [hcv]
      exact hvid

/-- Witness for C9 (amended): a concrete Songs-section item with a
defined play-button videoId; its final-list candidate satisfies the
amended invariant. -/
theorem c9_amended_song_video_videoId_witness :
    ((⟨"Title", "song", [], "3:00", some 180000, some "v9", some 100⟩
        : CandA).type = "song"
      ∨ (⟨"Title", "song", [], "3:00", some 180000, some "v9", some 100⟩
        : CandA).type = "video")
    ∧ ∃ p ∈ [((true : Bool),
        (⟨some [⟨"Title", false, none⟩], some [⟨"3:00", false, none⟩],
          some "v9", none⟩ : Content))],
        ∃ obj, classify p.1 p.2 = some obj
          ∧ obj.videoId? = some (⟨"Title", "song", [], "3:00", some 180000,
              some "v9", some 100⟩ : CandA).videoId
          ∧ (typeTagOf p.1 p.2 = some "song"
              ∨ typeTagOf p.1 p.2 = some "video") := by
  have h : searchAFromContents (fun _ => 100) (some 180000)
      [(true, ⟨some [⟨"Title", false, none⟩],
               some [⟨"3:00", false, none⟩], some "v9", none⟩)] =
      some [⟨"Title", "song", [], "3:00", some 180000, some "v9", some 100⟩] := by
    have hd : jsDurationMs "3:00" = some 180000 := by
      simp +decide [jsDurationMs, splitOnColon, splitColonGo, parseSegs,
        jsToNumSegment, charsTrim, parseNatChars, parseNatGo]
      norm_num
    simp +decide [searchAFromContents, classifyAll, classify, typeTagOf,
      runsText0, navRefs, resolveNav, resolveNavGo, searchA, validSectionsA,
      buildA, stepA, cleanA, accuracyA, accuracyACore, boostA, typeBonus, hd,
      jsKey, jsGtC, objectValues, isArrayIndexKey, parseNatChars, parseNatGo,
      jsSortDesc, insertDesc, List.filterMap_cons, List.lookup]
  exact c9_amended_song_video_videoId (fun _ => 100) (some 180000) _ _ h
    ⟨"Title", "song", [], "3:00", some 180000, some "v9", some 100⟩
    (by simp)
